import Mathlib

/-!
Verification of the mail-index sync engine (src/lib-index/mail-index-sync-update.c)
and the configuration filter matcher/merger (src/config/config-filter.c).

The C code is shallowly embedded: structs become Lean structures, in-place
mutation becomes explicit state passing, machine integers become `Nat`
(all the arithmetic involved is guarded against underflow in the source, and
counters never reach 2^32 under the stated hypotheses), `i_assert` failure
becomes `Option.none` (abnormal termination), and corruption reports
(`mail_index_sync_set_corrupted`) set an `errors` flag on the sync context.
-/

namespace MailIndex

/-! ### Flag bits (values from mail-index.h; only distinctness and identity of
the bits matter for the code under verification) -/

def MAIL_DELETED : Nat := 4
def MAIL_SEEN : Nat := 8
def MAIL_INDEX_MAIL_FLAG_DIRTY : Nat := 128
def MAIL_INDEX_HDR_FLAG_HAVE_DIRTY : Nat := 2
def MAIL_INDEX_HDR_FLAG_FSCKD : Nat := 4

/-- A mail index record: the fixed prefix (`uid`, `flags`) followed by the
extension-defined bytes up to `record_size`.  Equality of two `Record`s is
byte-identity of the on-disk record. -/
structure Record where
  uid : Nat
  flags : Nat
  ext : List Nat
deriving Repr, DecidableEq

instance : Inhabited Record := ⟨⟨0, 0, []⟩⟩

/-- The fields of `struct mail_index_header` used by the sync logic (field
view; the byte-image view used by `sync_header_update` is defined
separately below). -/
structure Header where
  messages_count : Nat
  next_uid : Nat
  seen_messages_count : Nat
  deleted_messages_count : Nat
  first_unseen_uid_lowwater : Nat
  first_deleted_uid_lowwater : Nat
  flags : Nat
  log_file_seq : Nat
  log_file_head_offset : Nat
  log_file_tail_offset : Nat
deriving Repr, DecidableEq

/-- `struct mail_index_record_map`: the record buffer plus staging state.
`ext_size` is `record_size - sizeof(struct mail_index_record)`, the number of
zero-filled extension bytes of an appended record. -/
structure RecMap where
  buf : List Record
  records_count : Nat
  last_appended_uid : Nat
  ext_size : Nat
deriving Repr, DecidableEq

/-- `struct mail_index_map` (header + record map reference).  Reference
counting and mmap promotion (`mail_index_sync_move_to_private_memory`,
`mail_index_sync_get_atomic_map`) are memory management with no effect on the
single-map functional state and are identity in this embedding. -/
structure Map where
  hdr : Header
  rec_map : RecMap
deriving Repr, DecidableEq

/-- `struct mail_index_sync_map_ctx`: the working map, the corruption flag
(`errors`, set by `mail_index_sync_set_corrupted`), the last extension-intro
position, the log view's previous position (`get_prev_pos`), and the
`MAIL_INDEX_OPEN_FLAG_NO_DIRTY` index open flag. -/
structure SyncCtx where
  map : Map
  errors : Bool
  ext_intro_seq : Nat
  ext_intro_offset : Nat
  ext_intro_end_offset : Nat
  prev_seq : Nat
  prev_offset : Nat
  no_dirty : Bool
deriving Repr, DecidableEq

/-- `mail_index_header_update_counts`: adjusts seen/deleted counters for a
flag change `old_flags → new_flags`.  Returns the error message (if any)
together with the header as mutated so far (the C function mutates the header
in place, so on the `-1` path the partial mutations persist). -/
def mail_index_header_update_counts (hdr0 : Header) (old_flags new_flags : Nat) :
    Option String × Header :=
  let step1 : Option String × Header :=
    if (old_flags ^^^ new_flags) &&& MAIL_SEEN ≠ 0 then
      if old_flags &&& MAIL_SEEN ≠ 0 then
        if hdr0.seen_messages_count = 0 then (some "Seen counter wrong", hdr0)
        else (none, { hdr0 with seen_messages_count := hdr0.seen_messages_count - 1 })
      else
        if hdr0.seen_messages_count ≥ hdr0.messages_count then
          (some "Seen counter wrong", hdr0)
        else
          let h := { hdr0 with seen_messages_count := hdr0.seen_messages_count + 1 }
          let h := if h.seen_messages_count = h.messages_count
                   then { h with first_unseen_uid_lowwater := h.next_uid } else h
          (none, h)
    else (none, hdr0)
  match step1 with
  | (some e, h) => (some e, h)
  | (none, h) =>
    if (old_flags ^^^ new_flags) &&& MAIL_DELETED ≠ 0 then
      if old_flags &&& MAIL_DELETED = 0 then
        let h2 := { h with deleted_messages_count := h.deleted_messages_count + 1 }
        if h2.deleted_messages_count > h2.messages_count
        then (some "Deleted counter wrong", h2)
        else (none, h2)
      else
        if h.deleted_messages_count = 0 ∨ h.deleted_messages_count > h.messages_count
        then (some "Deleted counter wrong", h)
        else
          let h2 := { h with deleted_messages_count := h.deleted_messages_count - 1 }
          let h2 := if h2.deleted_messages_count = 0
                    then { h2 with first_deleted_uid_lowwater := h2.next_uid } else h2
          (none, h2)
    else (none, h)

/-- `mail_index_sync_header_update_counts`: the single-map variant used on the
append and expunge paths (the fan-out variant iterates sibling maps sharing
the record map; with a single map they coincide).  A counter error or a
`uid >= next_uid` violation reports corruption (sets `errors`). -/
def mail_index_sync_header_update_counts (ctx : SyncCtx)
    (uid old_flags new_flags : Nat) : SyncCtx :=
  if uid ≥ ctx.map.hdr.next_uid then { ctx with errors := true }
  else
    match mail_index_header_update_counts ctx.map.hdr old_flags new_flags with
    | (some _, h) => { ctx with map := { ctx.map with hdr := h }, errors := true }
    | (none, h) => { ctx with map := { ctx.map with hdr := h } }

/-- `mail_index_header_update_lowwaters` (single-map variant of the fan-out
loop). -/
def mail_index_header_update_lowwaters (hdr : Header) (uid flags : Nat) : Header :=
  let hdr := if flags &&& MAIL_SEEN = 0 ∧ uid < hdr.first_unseen_uid_lowwater
             then { hdr with first_unseen_uid_lowwater := uid } else hdr
  if flags &&& MAIL_DELETED ≠ 0 ∧ uid < hdr.first_deleted_uid_lowwater
  then { hdr with first_deleted_uid_lowwater := uid } else hdr

/-- Writes record `r` at 0-based index `i` of the buffer (the effect of
`sync_append_record`'s `buffer_get_space_unsafe` + `memcpy` when
`i ≤ buf.length`). -/
def writeRecAt (buf : List Record) (i : Nat) (r : Record) : List Record :=
  buf.take i ++ [r] ++ buf.drop (i + 1)

/-- The record of an APPEND transaction payload (`struct mail_index_record`
fixed prefix only; the extension bytes are zero-filled by the append). -/
structure AppendRec where
  uid : Nat
  flags : Nat
deriving Repr, DecidableEq

/-- `sync_append`.  Returns `none` on `i_assert` failure, otherwise the
`(ret, ctx)` pair. -/
def sync_append (rec : AppendRec) (ctx : SyncCtx) : Option (Int × SyncCtx) :=
  let map := ctx.map
  if rec.uid < map.hdr.next_uid then
    some (-1, { ctx with errors := true })
  else
    let staged :=
      if rec.uid ≤ map.rec_map.last_appended_uid then
        -- re-append of an already staged record
        if map.hdr.messages_count < map.rec_map.records_count then  -- i_assert
          match map.rec_map.buf[map.hdr.messages_count]? with
          | none => none
          | some old_rec =>
            if old_rec.uid = rec.uid then  -- i_assert
              some (map, old_rec.flags)
            else none
        else none
      else
        -- fresh append: copy the prefix, zero-fill the extension bytes
        let newRec : Record := ⟨rec.uid, rec.flags, List.replicate map.rec_map.ext_size 0⟩
        let rm := { map.rec_map with
                      buf := writeRecAt map.rec_map.buf map.rec_map.records_count newRec,
                      records_count := map.rec_map.records_count + 1,
                      last_appended_uid := rec.uid }
        some ({ map with rec_map := rm }, rec.flags)
    match staged with
    | none => none
    | some (map1, new_flags) =>
      let hdr := { map1.hdr with
                     messages_count := map1.hdr.messages_count + 1,
                     next_uid := rec.uid + 1 }
      let hdr := if new_flags &&& MAIL_INDEX_MAIL_FLAG_DIRTY ≠ 0 ∧ ¬ ctx.no_dirty
                 then { hdr with flags := hdr.flags ||| MAIL_INDEX_HDR_FLAG_HAVE_DIRTY }
                 else hdr
      let hdr := mail_index_header_update_lowwaters hdr rec.uid new_flags
      let ctx1 := { ctx with map := { map1 with hdr := hdr } }
      some (1, mail_index_sync_header_update_counts ctx1 rec.uid 0 new_flags)

/-- `memmove` of `c` whole records from 0-based index `s` to 0-based index
`d` inside the buffer (memmove copies as if through a temporary, i.e. always
from the original buffer). -/
def moveRecords (buf : List Record) (d s c : Nat) : List Record :=
  buf.take d ++ (buf.drop s).take c ++ buf.drop (d + c)

/-- The flag-counter updates of one expunged seq range: for each `seq` in
`[s, e]` the record's flags are counted down to 0
(`mail_index_sync_header_update_counts(ctx, rec->uid, rec->flags, 0)`). -/
def expungeCountsRange (ctx : SyncCtx) (s e : Nat) : SyncCtx :=
  (List.range' s (e + 1 - s)).foldl
    (fun c seq =>
      let r := c.map.rec_map.buf.getD (seq - 1) default
      mail_index_sync_header_update_counts c r.uid r.flags 0)
    ctx

/-- The main loop of `sync_expunge_range`: walks the ranges in order keeping
`(dest_seq1, prev_seq2)`, decrements counters for each expunged record, and
moves each surviving gap down with `memmove`. -/
def expungeLoop : List (Nat × Nat) → SyncCtx → Nat → Nat → SyncCtx × Nat × Nat
  | [], ctx, dest, prev => (ctx, dest, prev)
  | (s, e) :: rest, ctx, dest, prev =>
    let ctx := expungeCountsRange ctx s e
    let step :=
      if prev + 1 ≤ s - 1 then
        let mc := (s - 1) - (prev + 1) + 1
        let ctx :=
          if prev + 1 ≠ dest then
            { ctx with map := { ctx.map with rec_map := { ctx.map.rec_map with
                buf := moveRecords ctx.map.rec_map.buf (dest - 1) prev mc } } }
          else ctx
        (ctx, dest + mc)
      else (ctx, dest)
    let ctx := step.1
    let dest := step.2
    let cnt := e - s + 1
    let ctx := { ctx with map :=
      { ctx.map with
          hdr := { ctx.map.hdr with
                     messages_count := ctx.map.hdr.messages_count - cnt },
          rec_map := { ctx.map.rec_map with
                     records_count := ctx.map.rec_map.records_count - cnt } } }
    expungeLoop rest ctx dest e

/-- `sync_expunge_range`.  Expunge handlers are registered per extension by
external callers; no handler is registered in this model (they only touch the
extension bytes of the records being expunged, never the survivors). -/
def sync_expunge_range (seqs : List (Nat × Nat)) (ctx : SyncCtx) : SyncCtx :=
  match seqs with
  | [] => ctx
  | _ =>
    let orig := ctx.map.rec_map.records_count
    let res := expungeLoop seqs ctx 1 0
    let ctx := res.1
    let dest := res.2.1
    let prev := res.2.2
    if orig > prev then
      { ctx with map := { ctx.map with rec_map := { ctx.map.rec_map with
          buf := moveRecords ctx.map.rec_map.buf (dest - 1) prev (orig - prev) } } }
    else ctx

/-- Modelled from the spec: `mail_index_lookup_seq_range` (mail-index-view.c,
not under src/).  Records are strictly uid-ascending by sequence; the lookup
returns the first and last sequence (1-based; only `seq ≤ messages_count` is
visible) whose record uid lies in `[uid1, uid2]`, or `none` when no message
matches. -/
def mail_index_lookup_seq_range (m : Map) (uid1 uid2 : Nat) : Option (Nat × Nat) :=
  let seqs := (List.range' 1 m.hdr.messages_count).filter (fun s =>
    let r := m.rec_map.buf.getD (s - 1) default
    decide (uid1 ≤ r.uid) && decide (r.uid ≤ uid2))
  match seqs with
  | [] => none
  | s :: rest => some (s, (rest.getLast?).getD s)

/-- Modelled from the spec: `mail_index_lookup_seq` — resolve uid → seq,
absent uids are skipped. -/
def mail_index_lookup_seq (m : Map) (uid : Nat) : Option Nat :=
  (mail_index_lookup_seq_range m uid uid).map (fun p => p.1)

/-- Modelled from the spec: `seq_range_array_add_range` (lib/seq-range-array.c,
not under src/) keeps a sorted list of non-overlapping, non-adjacent
`[seq1, seq2]` ranges and merges the added range into it. -/
def seq_range_array_add_range : List (Nat × Nat) → Nat → Nat → List (Nat × Nat)
  | [], s, e => [(s, e)]
  | (a, b) :: rest, s, e =>
    if b + 1 < s then (a, b) :: seq_range_array_add_range rest s e
    else if e + 1 < a then (s, e) :: (a, b) :: rest
    else seq_range_array_add_range rest (min a s) (max b e)

/-- The transaction record types exercised by the claims.  The remaining
types (`EXT_*`, `KEYWORD_*`, `MODSEQ_UPDATE`, ...) delegate to external
engines that are out of scope (spec §1); `boundary` stands for the no-op
types and `unknown` for an unrecognized type (corruption). -/
inductive TxnData where
  | append (recs : List AppendRec)
  | expunge (uidRanges : List (Nat × Nat))
  | expungeGuid (uids : List Nat)
  | boundary
  | unknown
deriving Repr, DecidableEq

/-- A transaction header: the `MAIL_TRANSACTION_EXTERNAL` bit plus the
type-masked payload. -/
structure Txn where
  external : Bool
  data : TxnData
deriving Repr, DecidableEq

/-- The `MAIL_TRANSACTION_APPEND` payload loop of
`mail_index_sync_record_real`: `ret` starts at 0 and the loop stops at the
first `ret ≤ 0`. -/
def syncAppendLoop : List AppendRec → SyncCtx → Int → Option (Int × SyncCtx)
  | [], ctx, ret => some (ret, ctx)
  | r :: rest, ctx, _ =>
    match sync_append r ctx with
    | none => none
    | some (ret2, ctx2) =>
      if ret2 ≤ 0 then some (ret2, ctx2) else syncAppendLoop rest ctx2 ret2

/-- `mail_index_sync_record_real` for the record types above.  `none` models
`i_assert` failure.  EXPUNGE and EXPUNGE_GUID without the EXTERNAL bit are
merely requests and do nothing. -/
def mail_index_sync_record_real (t : Txn) (ctx : SyncCtx) : Option (Int × SyncCtx) :=
  match t.data with
  | .append recs => syncAppendLoop recs ctx 0
  | .expunge uidRanges =>
    if ¬ t.external then some (0, ctx)
    else
      let seqs := uidRanges.foldl (fun acc p =>
        match mail_index_lookup_seq_range ctx.map p.1 p.2 with
        | some (s1, s2) => seq_range_array_add_range acc s1 s2
        | none => acc) []
      some (0, sync_expunge_range seqs ctx)
  | .expungeGuid uids =>
    if ¬ t.external then some (0, ctx)
    else
      let step := uids.foldl (fun acc uid =>
        match acc with
        | none => none
        | some rs =>
          if uid = 0 then none
          else match mail_index_lookup_seq ctx.map uid with
            | some s => some (seq_range_array_add_range rs s s)
            | none => some rs) (some [])
      match step with
      | none => none
      | some seqs => some (0, sync_expunge_range seqs ctx)
  | .boundary => some (0, ctx)
  | .unknown => some (-1, { ctx with errors := true })

/-- Modelled from the spec: `mail_index_map_alloc` (mail-index-map.c, not
under src/) produces an empty, freshly-allocated map: no records,
`messages_count = records_count = 0`, `next_uid = 1`, zero flag counters.
The first-unseen/first-deleted low-water marks start at the largest uid
value (`2^32 - 1`): scenario S1 requires that appending unseen uid 10 onto
the fresh map pulls `first_unseen_uid_lowwater` down to 10. -/
def mail_index_map_alloc (ext_size : Nat) : Map :=
  { hdr := { messages_count := 0, next_uid := 1, seen_messages_count := 0,
             deleted_messages_count := 0,
             first_unseen_uid_lowwater := 2 ^ 32 - 1,
             first_deleted_uid_lowwater := 2 ^ 32 - 1,
             flags := 0, log_file_seq := 0, log_file_head_offset := 0,
             log_file_tail_offset := 0 },
    rec_map := { buf := [], records_count := 0, last_appended_uid := 0,
                 ext_size := ext_size } }

/-- A sync context freshly initialized over an allocated map
(`mail_index_sync_map_init`: zeroed context, no errors). -/
def freshSyncCtx (ext_size : Nat) : SyncCtx :=
  { map := mail_index_map_alloc ext_size, errors := false, ext_intro_seq := 0,
    ext_intro_offset := 0, ext_intro_end_offset := 0, prev_seq := 0,
    prev_offset := 0, no_dirty := false }

/-! ### Specification-level functions for the expunge claims -/

/-- Is sequence `s` inside one of the seq ranges? -/
def inRanges (R : List (Nat × Nat)) (s : Nat) : Bool :=
  R.any (fun r => decide (r.1 ≤ s) && decide (s ≤ r.2))

/-- 1 when the flag bit is set in `flags`, else 0. -/
def flagBit (flag flags : Nat) : Nat :=
  if flags &&& flag ≠ 0 then 1 else 0

/-- Number of records with the flag bit set among seqs `s .. s+n-1` of
`buf`. -/
def rangeFlagCount (flag : Nat) (buf : List Record) (s n : Nat) : Nat :=
  ((List.range' s n).map (fun q => flagBit flag (buf.getD (q - 1) default).flags)).sum

/-- Number of records with the flag bit set among all expunged seqs. -/
def expFlagCount (flag : Nat) (buf : List Record) (R : List (Nat × Nat)) : Nat :=
  (R.map (fun r => rangeFlagCount flag buf r.1 (r.2 + 1 - r.1))).sum

/-- Number of expunged seqs that are `≤ s`. -/
def countInWindow (R : List (Nat × Nat)) (s : Nat) : Nat :=
  (R.map (fun r => min r.2 s + 1 - r.1)).sum

/-- Total number of expunged seqs. -/
def totalExpunged (R : List (Nat × Nat)) : Nat :=
  (R.map (fun r => r.2 + 1 - r.1)).sum

/-- The last range's end seq (`prev` when there is no range). -/
def lastE (R : List (Nat × Nat)) (prev : Nat) : Nat :=
  R.foldl (fun _ r => r.2) prev

/-- The seq ranges are strictly ascending past `prev`, non-empty, and end
within `N` (the shape `seq_range_array_add_range` produces, restricted to
the visible messages). -/
def rangesValid (prev N : Nat) : List (Nat × Nat) → Bool
  | [] => true
  | (s, e) :: rest =>
    decide (prev < s) && decide (s ≤ e) && decide (e ≤ N) && rangesValid e N rest

/-! ### Byte-image view of the header for HEADER_UPDATE

`sync_header_update` patches raw bytes of `hdr_copy_buf` and memcpy's the
in-range part over the live `struct mail_index_header`.  Modelled from the
spec ("Header: little-endian, fixed layout"; struct layout from mail-index.h,
which is not under src/): `base_header_size` is a u16 at offset 2, `next_uid`
a u32 at offset 28, `log_file_tail_offset` a u32 at offset 64, and the
struct is 120 bytes. -/

def BASE_HEADER_SIZE_OFFSET : Nat := 2

def NEXT_UID_OFFSET : Nat := 28

def LOG_FILE_TAIL_OFFSET_OFFSET : Nat := 64

def hdrStructSize : Nat := 120

def getU16 (b : List Nat) (off : Nat) : Nat :=
  b.getD off 0 + 256 * b.getD (off + 1) 0

def getU32 (b : List Nat) (off : Nat) : Nat :=
  b.getD off 0 + 256 * b.getD (off + 1) 0 + 65536 * b.getD (off + 2) 0 +
    16777216 * b.getD (off + 3) 0

/-- `buffer_write(buf, off, data, len)`: overwrite `data.length` bytes at
`off`. -/
def writeBytes (b : List Nat) (off : Nat) (data : List Nat) : List Nat :=
  b.take off ++ data ++ b.drop (off + data.length)

/-- Little-endian u32 store. -/
def putU32 (b : List Nat) (off v : Nat) : List Nat :=
  writeBytes b off [v % 256, v / 256 % 256, v / 65536 % 256, v / 16777216 % 256]

/-- The byte-level state `sync_header_update` works on: the live header
struct image and `hdr_copy_buf`. -/
structure MapBytes where
  hdr_bytes : List Nat
  hdr_copy_buf : List Nat
deriving Repr, DecidableEq

/-- `struct mail_transaction_header_update` (u->size is `data.length`). -/
structure HeaderUpdate where
  offset : Nat
  data : List Nat
deriving Repr, DecidableEq

/-- `sync_header_update`: range-check against `base_header_size`, write the
bytes into `hdr_copy_buf`, mirror the part overlapping the struct into the
live header, then restore `next_uid` if the write shrank it and always
restore `log_file_tail_offset`.  Returns `(ret, state, corrupted)`. -/
def sync_header_update (u : HeaderUpdate) (m : MapBytes) : Int × MapBytes × Bool :=
  let base := getU16 m.hdr_bytes BASE_HEADER_SIZE_OFFSET
  let orig_tail := getU32 m.hdr_bytes LOG_FILE_TAIL_OFFSET_OFFSET
  let orig_next := getU32 m.hdr_bytes NEXT_UID_OFFSET
  if u.offset ≥ base ∨ u.offset + u.data.length > base then
    (-1, m, true)
  else
    let copy2 := writeBytes m.hdr_copy_buf u.offset u.data
    let hb := m.hdr_bytes
    let hb :=
      if u.offset + u.data.length ≤ hdrStructSize then writeBytes hb u.offset u.data
      else if u.offset < hdrStructSize then
        writeBytes hb u.offset (u.data.take (hdrStructSize - u.offset))
      else hb
    let hb := if getU32 hb NEXT_UID_OFFSET < orig_next
              then putU32 hb NEXT_UID_OFFSET orig_next else hb
    let hb := putU32 hb LOG_FILE_TAIL_OFFSET_OFFSET orig_tail
    (1, ⟨hb, copy2⟩, false)

/-- A sample 120-byte header image: `base_header_size = 120`,
`next_uid = 50`, `log_file_tail_offset = 7`, all other bytes zero. -/
def sampleHdrBytes : List Nat :=
  putU32 (putU32 (writeBytes (List.replicate 120 0) 2 [120, 0]) 28 50) 64 7

/-- `mail_index_sync_update_log_offset`.  The previous log position
`(ctx.prev_seq, ctx.prev_offset)` is the one reported by the log view's
`mail_transaction_log_view_get_prev_pos`; at end-of-log it is the position
just past the last applied record. -/
def mail_index_sync_update_log_offset (ctx : SyncCtx) (hdr : Header) (eol : Bool) :
    Header :=
  if ctx.prev_seq = 0 then hdr
  else if ¬ eol then
    let prev_offset :=
      if ctx.prev_offset = ctx.ext_intro_end_offset ∧ ctx.prev_seq = ctx.ext_intro_seq
      then ctx.ext_intro_offset else ctx.prev_offset
    { hdr with log_file_seq := ctx.prev_seq, log_file_head_offset := prev_offset }
  else
    let hdr := if hdr.log_file_seq ≠ ctx.prev_seq
               then { hdr with log_file_seq := ctx.prev_seq, log_file_tail_offset := 0 }
               else hdr
    { hdr with log_file_head_offset := ctx.prev_offset }

/-- A concrete sync state for the expunge example of the spec: five records
with uids 1..5, uid 2 seen and uid 4 deleted. -/
def cExp : SyncCtx :=
  { map :=
    { hdr := { messages_count := 5, next_uid := 6, seen_messages_count := 1,
               deleted_messages_count := 1, first_unseen_uid_lowwater := 2,
               first_deleted_uid_lowwater := 4, flags := 0, log_file_seq := 1,
               log_file_head_offset := 0, log_file_tail_offset := 0 },
      rec_map := { buf := [{ uid := 1, flags := 0, ext := [] },
                           { uid := 2, flags := 8, ext := [] },
                           { uid := 3, flags := 0, ext := [] },
                           { uid := 4, flags := 4, ext := [] },
                           { uid := 5, flags := 0, ext := [] }],
                   records_count := 5, last_appended_uid := 5, ext_size := 0 } },
    errors := false, ext_intro_seq := 0, ext_intro_offset := 0,
    ext_intro_end_offset := 0, prev_seq := 0, prev_offset := 0,
    no_dirty := false }

/-- Modelled from the spec: the external collaborators of
`mail_index_sync_map` (spec lists the log reader and fsck as out of scope).
`viewSet` is the result of `mail_transaction_log_view_set` (negative = I/O
failure, 0 = lost log position, positive = success); `txns` are the records
the log view yields; `nextFail` says whether the final
`mail_transaction_log_view_next` call returns -1 (I/O) instead of 0 (end of
log); `hdrCheckOk` is the verdict of `mail_index_map_check_header`
(mail-index-map-hdr.c, not under src/); `fsckMap` is the map `mail_index_fsck`
installs in `index->map`. -/
structure SyncEnv where
  viewSet : Int
  txns : List Txn
  nextFail : Bool
  hdrCheckOk : Map → Bool
  fsckMap : Map

/-- The replay loop of `mail_index_sync_map`:
`(void)mail_index_sync_record(&sync_map_ctx, thdr, tdata)` drops the
per-record return value, so a corruption result (-1) continues with the next
transaction (best-effort; "we'll just skip over broken entries").  `none`
models an `i_assert` crash inside a record. -/
def syncMapLoop : List Txn → SyncCtx → Option SyncCtx
  | [], ctx => some ctx
  | t :: rest, ctx =>
    match mail_index_sync_record_real t ctx with
    | none => none
    | some (_, ctx2) => syncMapLoop rest ctx2

/-- `mail_index_sync_map`, scoped to its error policy: a failed
`mail_transaction_log_view_set` returns -1 (I/O) or 0 (lost log) without a
result map; otherwise the records are replayed best-effort, the log offsets
are finalized (`mail_index_sync_update_log_offset(..., TRUE)`), and the
result map is the fsck map when the header check fails or when corruption
was recorded (`sync_map_ctx.errors`), else the synced map; the return value
is -1 exactly when the final log read failed with I/O, else 1.  The dirty
flag scan, tail-offset bump and header image write-back are orthogonal to
the error policy and are not modelled. -/
def mail_index_sync_map (env : SyncEnv) (ctx0 : SyncCtx) :
    Option (Int × Option Map) :=
  if env.viewSet < 0 then some (-1, none)
  else if env.viewSet = 0 then some (0, none)
  else
    match syncMapLoop env.txns ctx0 with
    | none => none
    | some ctx =>
      let m := { ctx.map with
                   hdr := mail_index_sync_update_log_offset ctx ctx.map.hdr true }
      let m2 := if ¬ env.hdrCheckOk m then env.fsckMap
                else if ctx.errors then env.fsckMap
                else m
      some ((if env.nextFail then -1 else 1 : Int), some m2)

/-- A concrete driver environment: the log view opens fine, yields one
corrupt (unrecognized) transaction, and reaches end of log; the header check
passes and fsck would install a fresh map. -/
def envW : SyncEnv :=
  { viewSet := 1,
    txns := [{ external := false, data := TxnData.unknown }],
    nextFail := false,
    hdrCheckOk := fun _ => true,
    fsckMap := mail_index_map_alloc 0 }

end MailIndex
namespace ConfigFilter

/-- `struct config_filter`: the match mask / query filter.  IP addresses are
modelled as 32-bit values (`Nat`). -/
structure Filter where
  service : Option String
  local_name : Option String
  local_bits : Nat
  remote_bits : Nat
  local_net : Nat
  remote_net : Nat
deriving Repr, DecidableEq

/-- Modelled from the spec: `net_is_in_network` (lib/net.c, not under src/):
the address must lie within the mask's CIDR.  Per the source's FIXME note
("it's not comparing full masks") only the network-address prefix is
compared, so two masks with equal bits but differing low bits are equal. -/
def net_is_in_network (ip net bits : Nat) : Bool :=
  ip / 2 ^ (32 - bits) == net / 2 ^ (32 - bits)

/-- `config_filter_match_service`: a mask service beginning with `!` demands
inequality with the rest of the string, otherwise equality; a mask with a
service never matches a filter without one. -/
def config_filter_match_service (mask filter : Filter) : Bool :=
  match mask.service with
  | none => true
  | some ms =>
    match filter.service with
    | none => false
    | some fs =>
      if ms.data.head? = some '!' then ! (fs == String.mk (ms.data.drop 1))
      else fs == ms

/-- Modelled from the spec: `dns_match_wildcard` (lib/dns-util.c, not under
src/): returns 0 on match; a leading `*.` matches any single- or multi-label
prefix of the remaining suffix, otherwise the names must be equal. -/
def dns_match_wildcard (name pattern : String) : Int :=
  if pattern.data.take 2 = ['*', '.'] then
    if (pattern.data.drop 1).isSuffixOf name.data then 0 else 1
  else if name == pattern then 0 else 1

/-- `config_filter_match_local_name`: the mask's local_name holds multiple
space-separated patterns; any of them may match. -/
def splitChar (sep : Char) : List Char → List (List Char)
  | [] => [[]]
  | c :: rest =>
    match splitChar sep rest with
    | [] => [[]]
    | g :: gs => if c = sep then [] :: g :: gs else (c :: g) :: gs

def config_filter_match_local_name (mask_local_name filter_local_name : String) :
    Bool :=
  ((splitChar ' ' mask_local_name.data).map String.mk).any
    (fun tok => dns_match_wildcard filter_local_name tok == 0)

/-- `config_filter_match_rest`: local_name, then remote CIDR, then local
CIDR. -/
def config_filter_match_rest (mask filter : Filter) : Bool :=
  (match mask.local_name with
   | none => true
   | some ln =>
     match filter.local_name with
     | none => false
     | some fln => config_filter_match_local_name ln fln) &&
  (mask.remote_bits == 0 ||
    (filter.remote_bits != 0 &&
     net_is_in_network filter.remote_net mask.remote_net mask.remote_bits)) &&
  (mask.local_bits == 0 ||
    (filter.local_bits != 0 &&
     net_is_in_network filter.local_net mask.local_net mask.local_bits))

/-- `config_filter_match`. -/
def config_filter_match (mask filter : Filter) : Bool :=
  config_filter_match_service mask filter && config_filter_match_rest mask filter

/-- Modelled from the spec: one per-module settings parser state
(`struct config_module_parser` with its settings parser): the module root
name and the ordered association of changed setting keys to their values
(the parser's change mask). -/
structure ModParser where
  root : String
  changed : List (String × String)
deriving Repr, DecidableEq

/-- `struct config_filter_parser`: a filter mask, the per-module parser
states, and the `file:line` origin used in diagnostics. -/
structure FilterParser where
  filter : Filter
  parsers : List ModParser
  file_and_line : String
deriving Repr, DecidableEq

/-- `config_filter_parser_cmp`: local_name presence first, then local_bits
descending, then remote_bits descending, then service presence.  A negative
result sorts the strictly more specific filter first. -/
def config_filter_parser_cmp (p1 p2 : FilterParser) : Int :=
  let f1 := p1.filter
  let f2 := p2.filter
  if f1.local_name.isSome && f2.local_name.isNone then -1
  else if f1.local_name.isNone && f2.local_name.isSome then 1
  else if f1.local_bits > f2.local_bits then -1
  else if f1.local_bits < f2.local_bits then 1
  else if f1.remote_bits > f2.remote_bits then -1
  else if f1.remote_bits < f2.remote_bits then 1
  else if f1.service.isSome && f2.service.isNone then -1
  else if f1.service.isNone && f2.service.isSome then 1
  else 0

/-- One insertion step of the comparison sort modelling
`array_sort(&matches, config_filter_parser_cmp)`. -/
def sortInsert (x : FilterParser) : List FilterParser → List FilterParser
  | [] => [x]
  | y :: ys =>
    if config_filter_parser_cmp x y ≤ 0 then x :: y :: ys else y :: sortInsert x ys

/-- `array_sort(&matches, config_filter_parser_cmp)`: a comparison sort
(ties keep insertion order here; qsort leaves tie order unspecified). -/
def config_filter_parser_sort (l : List FilterParser) : List FilterParser :=
  l.foldr sortInsert []

/-- Modelled interface: `config_module_want_parser` — an empty module list
selects every module, otherwise the module root must be listed. -/
def config_module_want (modules : List String) (root : String) : Bool :=
  modules.isEmpty || modules.contains root

/-- `have_changed_settings`: some wanted module parser has a changed byte in
its change mask (here: a non-empty change list). -/
def have_changed_settings (p : FilterParser) (modules : List String) : Bool :=
  p.parsers.any (fun mp => config_module_want modules mp.root && ! mp.changed.isEmpty)

/-- `struct master_service_settings_output`.  `specific_services` is `none`
when the caller's query names a service (the C code then leaves the zeroed
field untouched). -/
structure SettingsOutput where
  service_uses_local : Bool
  service_uses_remote : Bool
  used_local : Bool
  used_remote : Bool
  specific_services : Option (List String)
deriving Repr, DecidableEq

/-- The accumulator of `config_filter_find_all`'s scan. -/
structure FindAcc where
  found : List FilterParser
  service_names : List String
  out : SettingsOutput
deriving Repr, DecidableEq

/-- One iteration of `config_filter_find_all`'s scan over the parsers. -/
def findAllStep (modules : List String) (filter : Filter) (acc : FindAcc)
    (p : FilterParser) : FindAcc :=
  let mask := p.filter
  if ! config_filter_match_service mask filter then
    if ! acc.service_names.contains (mask.service.getD "") &&
       have_changed_settings p modules then
      { acc with service_names := acc.service_names ++ [mask.service.getD ""] }
    else acc
  else
    let out := acc.out
    let out := if mask.local_bits > 0 || mask.local_name.isSome
               then { out with service_uses_local := true } else out
    let out := if mask.remote_bits > 0
               then { out with service_uses_remote := true } else out
    if config_filter_match_rest mask filter then
      let out := if mask.local_bits > 0 || mask.local_name.isSome
                 then { out with used_local := true } else out
      let out := if mask.remote_bits > 0
                 then { out with used_remote := true } else out
      { acc with found := acc.found ++ [p], out := out }
    else { acc with out := out }

/-- `config_filter_find_all`: scan every parser, collect the matches and the
services excluded by the service check, set the output flags, expose
`specific_services` only for a service-less query, and sort the matches with
`config_filter_parser_cmp`. -/
def config_filter_find_all (parsers : List FilterParser) (modules : List String)
    (filter : Filter) : List FilterParser × SettingsOutput :=
  let acc := parsers.foldl (findAllStep modules filter)
    ⟨[], [], ⟨false, false, false, false, none⟩⟩
  let out := if filter.service.isNone
             then { acc.out with specific_services := some acc.service_names }
             else acc.out
  (config_filter_parser_sort acc.found, out)

/-- `config_filter_is_superset`: `sup` is a superset of `filter` iff its CIDR
bits are no larger and it constrains local_name/service only if `filter`
does. -/
def config_filter_is_superset (sup filter : Filter) : Bool :=
  ! decide (sup.local_bits > filter.local_bits) &&
  ! decide (sup.remote_bits > filter.remote_bits) &&
  ! (sup.local_name.isSome && filter.local_name.isNone) &&
  ! (sup.service.isSome && filter.service.isNone)

/-- Modelled from the spec: `settings_parser_apply_changes`
(lib-settings/settings-parser.c, not under src/): apply `src`'s changed
settings onto `dest`.  With conflict detection (`detect = true`,
`conflict_key_r` non-NULL) a key changed on both sides fails with the first
such key; without it the destination's existing change overrides the
source's (the deliberately unintuitive direction, see the comment in
`config_filter_parsers_get`). -/
def settings_apply_go (detect : Bool) (d : ModParser) :
    List (String × String) → Except String ModParser
  | [] => .ok d
  | kv :: rest =>
    if (d.changed.map Prod.fst).contains kv.1 then
      if detect then .error kv.1 else settings_apply_go detect d rest
    else settings_apply_go detect { d with changed := d.changed ++ [kv] } rest

def settings_parser_apply_changes (dest src : ModParser) (detect : Bool) :
    Except String ModParser :=
  settings_apply_go detect dest src.changed

/-- The module loop of `config_module_parser_apply_changes`: the destination
modules drive the iteration and are updated in order; a conflict from module
`i` aborts with the formatted error. -/
def applyChangesZip (detect : Bool) (fl : String) :
    List ModParser → List ModParser → Except String (List ModParser)
  | [], _ => .ok []
  | d :: ds, ss =>
    match settings_parser_apply_changes d (ss.headD ⟨"", []⟩) detect with
    | .error k =>
      .error ("Conflict in setting " ++ k ++ " found from filter at " ++ fl)
    | .ok d2 =>
      match applyChangesZip detect fl ds ss.tail with
      | .error e => .error e
      | .ok rest => .ok (d2 :: rest)

/-- `config_module_parser_apply_changes` (`error_r = NULL` becomes
`detect = false`). -/
def config_module_parser_apply_changes (dest : List ModParser)
    (src : FilterParser) (detect : Bool) : Except String (List ModParser) :=
  applyChangesZip detect src.file_and_line dest src.parsers

/-- The apply loop of `config_filter_parsers_get`: each subsequent match's
changes are applied onto the destination; conflict detection is off exactly
when the match's filter is a superset of the previously applied match's
filter. -/
def mergeApplyLoop (dest : List ModParser) (prev : Filter) :
    List FilterParser → Except String (List ModParser)
  | [] => .ok dest
  | p :: rest =>
    let detect := ! config_filter_is_superset p.filter prev
    match config_module_parser_apply_changes dest p detect with
    | .error e => .error e
    | .ok d => mergeApplyLoop d p.filter rest

/-- `config_filter_parsers_get`.  `none` models the NULL dereference on an
empty match list (`src[0]` would be the terminator); the duplication of the
first match's parsers (`settings_parser_dup`) is a deep copy, identity
here. -/
def config_filter_parsers_get (parsers : List FilterParser)
    (modules : List String) (filter : Filter) :
    Option (Except String (List ModParser) × SettingsOutput) :=
  let res := config_filter_find_all parsers modules filter
  match res.1 with
  | [] => none
  | base :: rest => some (mergeApplyLoop base.parsers base.filter rest, res.2)

/-- Specification-level: the first key of `s`'s changes that the destination
module `d` has also changed (the key `settings_parser_apply_changes` reports
with conflict detection on). -/
def conflictKey (d s : ModParser) : Option String :=
  (s.changed.find? (fun kv => (d.changed.map Prod.fst).contains kv.1)).map Prod.fst

/-- Specification-level: the first conflicting key over the per-module pairs,
in the module order of `config_module_parser_apply_changes`. -/
def moduleConflictKey : List ModParser → List ModParser → Option String
  | [], _ => none
  | d :: ds, ss =>
    match conflictKey d (ss.headD ⟨"", []⟩) with
    | some k => some k
    | none => moduleConflictKey ds ss.tail

/-! ### Concrete fixtures for the counterexamples and witnesses -/

/-- A global parser (no constraints) changing setting `x` to `B`. -/
def cfP_general : FilterParser :=
  ⟨⟨none, none, 0, 0, 0, 0⟩, [⟨"mail", [("x", "B")]⟩], "conf:2"⟩

/-- A service-specific parser (`service imap`) changing setting `x` to `A`. -/
def cfP_imap : FilterParser :=
  ⟨⟨some "imap", none, 0, 0, 0, 0⟩, [⟨"mail", [("x", "A")]⟩], "conf:1"⟩

/-- A query filter for service `imap`. -/
def cfQ_imap : Filter := ⟨some "imap", none, 0, 0, 0, 0⟩

/-- A local-CIDR parser (`local 192.168.0.0/16`-style) changing `x` to `A`. -/
def cfP_localnet : FilterParser :=
  ⟨⟨none, none, 16, 0, 777 * 2 ^ 16, 0⟩, [⟨"mail", [("x", "A")]⟩], "conf:3"⟩

/-- A remote-CIDR parser (`remote 10.0.0.0/8`-style) changing `x` to `B`. -/
def cfP_remotenet : FilterParser :=
  ⟨⟨none, none, 0, 8, 0, 10 * 2 ^ 24⟩, [⟨"mail", [("x", "B")]⟩], "conf:4"⟩

/-- A query filter matching both `cfP_localnet` and `cfP_remotenet`. -/
def cfQ_nets : Filter := ⟨none, none, 16, 8, 777 * 2 ^ 16, 10 * 2 ^ 24⟩

/-- A `pop3` parser with changed settings whose local CIDR does NOT match
`cfQ_nets` (different /8 network). -/
def cfP_pop3 : FilterParser :=
  ⟨⟨some "pop3", none, 8, 0, 99 * 2 ^ 24, 0⟩, [⟨"mail", [("y", "C")]⟩], "conf:5"⟩

end ConfigFilter

namespace MailIndex

/-! ### Bit helpers -/

theorem and_pow_ne_zero_iff (x k : Nat) : x &&& 2 ^ k ≠ 0 ↔ x.testBit k := by
  rw [Nat.and_two_pow]
  cases h : x.testBit k <;> simp [h]

theorem xor_and_pow_ne_zero_iff (x y k : Nat) :
    (x ^^^ y) &&& 2 ^ k ≠ 0 ↔ ¬ (x.testBit k = y.testBit k) := by
  rw [Nat.and_two_pow, Nat.testBit_xor]
  cases h : x.testBit k <;> cases h2 : y.testBit k <;> simp [h, h2]

theorem MAIL_SEEN_eq : MAIL_SEEN = 2 ^ 3 := rfl

theorem MAIL_DELETED_eq : MAIL_DELETED = 2 ^ 2 := rfl

/-- Claim C10: the counter-update error paths are asymmetric in atomicity.
Setting `MAIL_SEEN` when `seen_messages_count` has already reached
`messages_count` (the bound checked before the increment; incrementing would
push the counter past `messages_count`) reports "Seen counter wrong" with the
header unchanged, while setting `MAIL_DELETED` when the incremented
`deleted_messages_count` exceeds `messages_count` reports
"Deleted counter wrong" only after `deleted_messages_count` has already been
incremented, leaving the header mutated on the error path. -/
theorem counter_update_error_asymmetry :
    (∀ (hdr : Header) (o n : Nat),
       o &&& MAIL_SEEN = 0 → n &&& MAIL_SEEN ≠ 0 →
       hdr.seen_messages_count ≥ hdr.messages_count →
       mail_index_header_update_counts hdr o n = (some "Seen counter wrong", hdr)) ∧
    (∀ (hdr : Header) (o n : Nat),
       o &&& MAIL_SEEN = n &&& MAIL_SEEN →
       o &&& MAIL_DELETED = 0 → n &&& MAIL_DELETED ≠ 0 →
       hdr.deleted_messages_count + 1 > hdr.messages_count →
       mail_index_header_update_counts hdr o n =
         (some "Deleted counter wrong",
          { hdr with deleted_messages_count := hdr.deleted_messages_count + 1 })) := by
  constructor
  · intro hdr o n ho hn hcnt
    have hob : o.testBit 3 = false := by
      by_contra hc
      have hc2 : o.testBit 3 = true := by simpa using hc
      have := (and_pow_ne_zero_iff o 3).mpr hc2
      rw [← MAIL_SEEN_eq] at this
      exact this ho
    have hnb : n.testBit 3 = true := by
      have := (and_pow_ne_zero_iff n 3).mp (by rw [← MAIL_SEEN_eq]; exact hn)
      simpa using this
    have hx : (o ^^^ n) &&& MAIL_SEEN ≠ 0 := by
      rw [MAIL_SEEN_eq, xor_and_pow_ne_zero_iff, hob, hnb]; simp
    have ho' : ¬ (o &&& MAIL_SEEN ≠ 0) := by simpa using ho
    simp [mail_index_header_update_counts, hx, ho', hcnt]
  · intro hdr o n hseen ho hn hcnt
    have hxs : ¬ ((o ^^^ n) &&& MAIL_SEEN ≠ 0) := by
      rw [MAIL_SEEN_eq, xor_and_pow_ne_zero_iff]
      simp only [not_not]
      have h1 := Nat.and_two_pow o 3
      have h2 := Nat.and_two_pow n 3
      rw [MAIL_SEEN_eq] at hseen
      rw [h1, h2] at hseen
      cases hob : o.testBit 3 <;> cases hnb : n.testBit 3 <;>
        simp [hob, hnb] at hseen ⊢
    have hob : o.testBit 2 = false := by
      by_contra hc
      have hc2 : o.testBit 2 = true := by simpa using hc
      have := (and_pow_ne_zero_iff o 2).mpr hc2
      rw [← MAIL_DELETED_eq] at this
      exact this ho
    have hnb : n.testBit 2 = true := by
      have := (and_pow_ne_zero_iff n 2).mp (by rw [← MAIL_DELETED_eq]; exact hn)
      simpa using this
    have hxd : (o ^^^ n) &&& MAIL_DELETED ≠ 0 := by
      rw [MAIL_DELETED_eq, xor_and_pow_ne_zero_iff, hob, hnb]; simp
    simp [mail_index_header_update_counts, hxs, hxd, ho, hcnt]

/-- Witness for C10 at concrete inputs: a header with
`messages_count = seen_messages_count = 1` rejects a SEEN increment
unchanged, and a header with `messages_count = deleted_messages_count = 1`
reports the deleted error with the counter already pushed to 2. -/
theorem counter_update_error_asymmetry_witness :
    mail_index_header_update_counts ⟨1, 5, 1, 0, 0, 0, 0, 0, 0, 0⟩ 0 MAIL_SEEN =
      (some "Seen counter wrong", ⟨1, 5, 1, 0, 0, 0, 0, 0, 0, 0⟩) ∧
    mail_index_header_update_counts ⟨1, 5, 0, 1, 0, 0, 0, 0, 0, 0⟩ 0 MAIL_DELETED =
      (some "Deleted counter wrong", ⟨1, 5, 0, 2, 0, 0, 0, 0, 0, 0⟩) :=
  ⟨counter_update_error_asymmetry.1 ⟨1, 5, 1, 0, 0, 0, 0, 0, 0, 0⟩ 0 MAIL_SEEN
     (by decide) (by decide) (by decide),
   counter_update_error_asymmetry.2 ⟨1, 5, 0, 1, 0, 0, 0, 0, 0, 0⟩ 0 MAIL_DELETED
     (by decide) (by decide) (by decide) (by decide)⟩

/-- Claim C5 (scenario S1): from an empty, freshly-allocated map, applying
APPEND with records `{uid=10, flags=0}` and `{uid=11, flags=SEEN}` yields
`messages_count=2`, `next_uid=12`, `seen_messages_count=1`,
`deleted_messages_count=0` and `first_unseen_uid_lowwater=10` (and no
corruption). -/
theorem s1_append_scenario :
    (mail_index_sync_record_real
        ⟨true, .append [⟨10, 0⟩, ⟨11, MAIL_SEEN⟩]⟩ (freshSyncCtx 4)).map
      (fun p => (p.2.map.hdr.messages_count, p.2.map.hdr.next_uid,
                 p.2.map.hdr.seen_messages_count,
                 p.2.map.hdr.deleted_messages_count,
                 p.2.map.hdr.first_unseen_uid_lowwater, p.2.errors)) =
      some (2, 12, 1, 0, 10, false) := by decide

/-- Claim C2: an APPEND record with `next_uid ≤ uid ≤ last_appended_uid` is a
re-append of a record already staged beyond `messages_count`: no new record
is appended (`rec_map` — buffer, `records_count`, `last_appended_uid` — is
unchanged), the result is independent of the payload flags, and the staged
record's flags drive the dirty-flag, low-water and counter updates, while
`messages_count` is still incremented and `next_uid` set to `uid + 1`. -/
theorem append_retry_idempotent (ctx : SyncCtx) (uid : Nat) (old_rec : Record)
    (h1 : ctx.map.hdr.next_uid ≤ uid)
    (h2 : uid ≤ ctx.map.rec_map.last_appended_uid)
    (h3 : ctx.map.hdr.messages_count < ctx.map.rec_map.records_count)
    (h4 : ctx.map.rec_map.buf[ctx.map.hdr.messages_count]? = some old_rec)
    (h5 : old_rec.uid = uid) :
    ∀ payload_flags : Nat,
      sync_append ⟨uid, payload_flags⟩ ctx =
        some (1,
          let hdr1 := { ctx.map.hdr with
                          messages_count := ctx.map.hdr.messages_count + 1,
                          next_uid := uid + 1 }
          let hdr2 := if old_rec.flags &&& MAIL_INDEX_MAIL_FLAG_DIRTY ≠ 0 ∧ ¬ ctx.no_dirty
                      then { hdr1 with
                               flags := hdr1.flags ||| MAIL_INDEX_HDR_FLAG_HAVE_DIRTY }
                      else hdr1
          let hdr3 := mail_index_header_update_lowwaters hdr2 uid old_rec.flags
          mail_index_sync_header_update_counts
            { ctx with map := { ctx.map with hdr := hdr3 } } uid 0 old_rec.flags) := by
  intro payload_flags
  have hnotlt : ¬ (uid < ctx.map.hdr.next_uid) := Nat.not_lt.mpr h1
  simp [sync_append, hnotlt, h2, h3, h4, h5]

/-- Witness for C2: a map with one record staged beyond `messages_count`
(uid 7, flags SEEN); re-appending uid 7 with arbitrary payload flags 3 leaves
the record map untouched and counts the staged SEEN flag. -/
theorem append_retry_idempotent_witness :
    sync_append ⟨7, 3⟩
        ⟨⟨⟨0, 5, 0, 0, 100, 100, 0, 0, 0, 0⟩,
          ⟨[⟨7, MAIL_SEEN, []⟩], 1, 7, 0⟩⟩, false, 0, 0, 0, 0, 0, false⟩ =
      some (1,
        ⟨⟨⟨1, 8, 1, 0, 8, 100, 0, 0, 0, 0⟩,
          ⟨[⟨7, MAIL_SEEN, []⟩], 1, 7, 0⟩⟩, false, 0, 0, 0, 0, 0, false⟩) := by
  have h := append_retry_idempotent
    ⟨⟨⟨0, 5, 0, 0, 100, 100, 0, 0, 0, 0⟩,
      ⟨[⟨7, MAIL_SEEN, []⟩], 1, 7, 0⟩⟩, false, 0, 0, 0, 0, 0, false⟩
    7 ⟨7, MAIL_SEEN, []⟩ (by decide) (by decide) (by decide) (by decide) rfl 3
  rw [h]
  decide

/-- Claim C7: when finalizing `log_file_head_offset` for a non-end-of-log
update (`eol = false`) and the previously applied transaction ended exactly
at the recorded end offset and log sequence of the last extension intro, the
head offset is set to the intro's start offset; at end-of-log the back-up
rule is not applied and the head offset becomes the log view's previous
position, i.e. the position just past the last applied record. -/
theorem ext_intro_backup_rule (ctx : SyncCtx) (hdr : Header)
    (h0 : ctx.prev_seq ≠ 0) :
    (ctx.prev_offset = ctx.ext_intro_end_offset → ctx.prev_seq = ctx.ext_intro_seq →
       (mail_index_sync_update_log_offset ctx hdr false).log_file_head_offset =
         ctx.ext_intro_offset) ∧
    (mail_index_sync_update_log_offset ctx hdr true).log_file_head_offset =
      ctx.prev_offset := by
  constructor
  · intro he hs
    have h0' : ctx.ext_intro_seq ≠ 0 := hs ▸ h0
    simp [mail_index_sync_update_log_offset, h0, h0', he, hs]
  · by_cases hseq : hdr.log_file_seq = ctx.prev_seq <;>
      simp [mail_index_sync_update_log_offset, h0, hseq]

/-- Witness for C7 at a concrete sync context: the last intro spans
`[100, 140)` of log seq 2, the previous transaction ended at offset 140, the
non-EOL finalize backs up to 100 while the EOL finalize keeps 140. -/
theorem ext_intro_backup_rule_witness :
    (mail_index_sync_update_log_offset
        ⟨mail_index_map_alloc 0, false, 2, 100, 140, 2, 140, false⟩
        (mail_index_map_alloc 0).hdr false).log_file_head_offset = 100 ∧
    (mail_index_sync_update_log_offset
        ⟨mail_index_map_alloc 0, false, 2, 100, 140, 2, 140, false⟩
        (mail_index_map_alloc 0).hdr true).log_file_head_offset = 140 :=
  ⟨(ext_intro_backup_rule
      ⟨mail_index_map_alloc 0, false, 2, 100, 140, 2, 140, false⟩
      (mail_index_map_alloc 0).hdr (by decide)).1 rfl rfl,
   (ext_intro_backup_rule
      ⟨mail_index_map_alloc 0, false, 2, 100, 140, 2, 140, false⟩
      (mail_index_map_alloc 0).hdr (by decide)).2⟩

/-! ### Byte-level lemmas for the header image -/

theorem getD_take_lt (b : List Nat) (n p : Nat) (h : p < n) :
    (b.take n).getD p 0 = b.getD p 0 := by
  simp [List.getD_eq_getElem?_getD, List.getElem?_take, h]

theorem getD_drop_add (b : List Nat) (n p : Nat) :
    (b.drop n).getD p 0 = b.getD (n + p) 0 := by
  simp [List.getD_eq_getElem?_getD, List.getElem?_drop]

theorem getD_lt_256 (b : List Nat) (hb : ∀ x ∈ b, x < 256) (p : Nat) :
    b.getD p 0 < 256 := by
  rcases h : b[p]? with _ | x
  · simp [List.getD_eq_getElem?_getD, h]
  · have hx := List.getElem?_mem h
    simp only [List.getD_eq_getElem?_getD, h, Option.getD_some]
    exact hb x hx

theorem getU32_lt (b : List Nat) (hb : ∀ x ∈ b, x < 256) (off : Nat) :
    getU32 b off < 2 ^ 32 := by
  have h0 := getD_lt_256 b hb off
  have h1 := getD_lt_256 b hb (off + 1)
  have h2 := getD_lt_256 b hb (off + 2)
  have h3 := getD_lt_256 b hb (off + 3)
  unfold getU32
  omega

theorem writeBytes_length (b : List Nat) (off : Nat) (data : List Nat)
    (h : off + data.length ≤ b.length) :
    (writeBytes b off data).length = b.length := by
  unfold writeBytes
  simp only [List.length_append, List.length_take, List.length_drop]
  omega

theorem writeBytes_getD (b : List Nat) (off : Nat) (data : List Nat) (p : Nat)
    (h : off + data.length ≤ b.length) :
    (writeBytes b off data).getD p 0 =
      (if off ≤ p ∧ p < off + data.length then data.getD (p - off) 0
       else b.getD p 0) := by
  unfold writeBytes
  have htk : (b.take off).length = off := by
    rw [List.length_take]
    omega
  rw [List.append_assoc]
  rcases Nat.lt_or_ge p off with hp | hp
  · rw [if_neg (by omega)]
    rw [List.getD_append _ _ _ _ (by omega)]
    exact getD_take_lt b off p hp
  · rw [List.getD_append_right _ _ _ _ (by omega), htk]
    rcases Nat.lt_or_ge p (off + data.length) with hp2 | hp2
    · rw [if_pos ⟨hp, hp2⟩]
      rw [List.getD_append _ _ _ _ (by omega)]
    · rw [if_neg (by omega)]
      rw [List.getD_append_right _ _ _ _ (by omega)]
      rw [getD_drop_add]
      congr 1
      omega

theorem putU32_length (b : List Nat) (off v : Nat) (h : off + 4 ≤ b.length) :
    (putU32 b off v).length = b.length := by
  unfold putU32
  exact writeBytes_length b off _ (by simpa using h)

theorem putU32_getD_outside (b : List Nat) (off v p : Nat)
    (h : off + 4 ≤ b.length) (hp : p < off ∨ off + 4 ≤ p) :
    (putU32 b off v).getD p 0 = b.getD p 0 := by
  unfold putU32
  rw [writeBytes_getD b off _ p (by simpa using h)]
  rw [if_neg (by simp only [List.length_cons, List.length_nil]; omega)]

theorem getU32_putU32_same (b : List Nat) (off v : Nat)
    (h : off + 4 ≤ b.length) (hv : v < 2 ^ 32) :
    getU32 (putU32 b off v) off = v := by
  unfold getU32 putU32
  have e0 := writeBytes_getD b off
    [v % 256, v / 256 % 256, v / 65536 % 256, v / 16777216 % 256] off (by simpa using h)
  have e1 := writeBytes_getD b off
    [v % 256, v / 256 % 256, v / 65536 % 256, v / 16777216 % 256] (off + 1)
    (by simpa using h)
  have e2 := writeBytes_getD b off
    [v % 256, v / 256 % 256, v / 65536 % 256, v / 16777216 % 256] (off + 2)
    (by simpa using h)
  have e3 := writeBytes_getD b off
    [v % 256, v / 256 % 256, v / 65536 % 256, v / 16777216 % 256] (off + 3)
    (by simpa using h)
  rw [e0, e1, e2, e3]
  rw [if_pos (by simp only [List.length_cons, List.length_nil]; omega)]
  rw [if_pos (by simp only [List.length_cons, List.length_nil]; omega)]
  rw [if_pos (by simp only [List.length_cons, List.length_nil]; omega)]
  rw [if_pos (by simp only [List.length_cons, List.length_nil]; omega)]
  have i0 : off - off = 0 := by omega
  have i1 : off + 1 - off = 1 := by omega
  have i2 : off + 2 - off = 2 := by omega
  have i3 : off + 3 - off = 3 := by omega
  rw [i0, i1, i2, i3]
  simp only [List.getD_cons_zero, List.getD_cons_succ]
  omega

theorem getU32_putU32_outside (b : List Nat) (off v off2 : Nat)
    (h : off + 4 ≤ b.length) (hd : off2 + 4 ≤ off ∨ off + 4 ≤ off2) :
    getU32 (putU32 b off v) off2 = getU32 b off2 := by
  unfold getU32
  rw [putU32_getD_outside b off v off2 h (by omega),
      putU32_getD_outside b off v (off2 + 1) h (by omega),
      putU32_getD_outside b off v (off2 + 2) h (by omega),
      putU32_getD_outside b off v (off2 + 3) h (by omega)]

/-- Claim C6: a HEADER_UPDATE within the valid range (inside
`base_header_size`, itself within the header struct) succeeds without
corruption; it never shrinks `next_uid` — when the written bytes would lower
it the prior value is silently restored — it never changes
`log_file_tail_offset` (the prior value is restored), and every other
in-range header byte takes the written bytes, which are also written
verbatim into `hdr_copy_buf`. -/
theorem header_update_guards (u : HeaderUpdate) (m : MapBytes)
    (hlen : m.hdr_bytes.length = 120)
    (hbyte : ∀ x ∈ m.hdr_bytes, x < 256)
    (hoff : u.offset < getU16 m.hdr_bytes BASE_HEADER_SIZE_OFFSET)
    (hrange : u.offset + u.data.length ≤ getU16 m.hdr_bytes BASE_HEADER_SIZE_OFFSET)
    (hbase : getU16 m.hdr_bytes BASE_HEADER_SIZE_OFFSET ≤ hdrStructSize)
    (hcopy : getU16 m.hdr_bytes BASE_HEADER_SIZE_OFFSET ≤ m.hdr_copy_buf.length) :
    (sync_header_update u m).1 = 1 ∧
    (sync_header_update u m).2.2 = false ∧
    getU32 (sync_header_update u m).2.1.hdr_bytes NEXT_UID_OFFSET =
      (if getU32 (writeBytes m.hdr_bytes u.offset u.data) NEXT_UID_OFFSET <
          getU32 m.hdr_bytes NEXT_UID_OFFSET
       then getU32 m.hdr_bytes NEXT_UID_OFFSET
       else getU32 (writeBytes m.hdr_bytes u.offset u.data) NEXT_UID_OFFSET) ∧
    getU32 m.hdr_bytes NEXT_UID_OFFSET ≤
      getU32 (sync_header_update u m).2.1.hdr_bytes NEXT_UID_OFFSET ∧
    getU32 (sync_header_update u m).2.1.hdr_bytes LOG_FILE_TAIL_OFFSET_OFFSET =
      getU32 m.hdr_bytes LOG_FILE_TAIL_OFFSET_OFFSET ∧
    (∀ p, p < hdrStructSize →
       (p < NEXT_UID_OFFSET ∨ NEXT_UID_OFFSET + 4 ≤ p) →
       (p < LOG_FILE_TAIL_OFFSET_OFFSET ∨ LOG_FILE_TAIL_OFFSET_OFFSET + 4 ≤ p) →
       (sync_header_update u m).2.1.hdr_bytes.getD p 0 =
         (if u.offset ≤ p ∧ p < u.offset + u.data.length
          then u.data.getD (p - u.offset) 0 else m.hdr_bytes.getD p 0)) ∧
    (∀ p, (sync_header_update u m).2.1.hdr_copy_buf.getD p 0 =
       (if u.offset ≤ p ∧ p < u.offset + u.data.length
        then u.data.getD (p - u.offset) 0 else m.hdr_copy_buf.getD p 0)) := by
  have hcond : ¬ (u.offset ≥ getU16 m.hdr_bytes BASE_HEADER_SIZE_OFFSET ∨
      u.offset + u.data.length > getU16 m.hdr_bytes BASE_HEADER_SIZE_OFFSET) := by
    omega
  have hin : u.offset + u.data.length ≤ hdrStructSize := le_trans hrange hbase
  have hinb : u.offset + u.data.length ≤ m.hdr_bytes.length := by
    rw [hlen]
    exact hin
  have hres : sync_header_update u m =
      (1, ⟨putU32
             (if getU32 (writeBytes m.hdr_bytes u.offset u.data) NEXT_UID_OFFSET <
                 getU32 m.hdr_bytes NEXT_UID_OFFSET
              then putU32 (writeBytes m.hdr_bytes u.offset u.data) NEXT_UID_OFFSET
                     (getU32 m.hdr_bytes NEXT_UID_OFFSET)
              else writeBytes m.hdr_bytes u.offset u.data)
             LOG_FILE_TAIL_OFFSET_OFFSET
             (getU32 m.hdr_bytes LOG_FILE_TAIL_OFFSET_OFFSET),
           writeBytes m.hdr_copy_buf u.offset u.data⟩, false) := by
    unfold sync_header_update
    dsimp only
    rw [if_neg hcond, if_pos hin]
  have hmirlen : (writeBytes m.hdr_bytes u.offset u.data).length = 120 := by
    rw [writeBytes_length m.hdr_bytes u.offset u.data hinb, hlen]
  have hnextlt : getU32 m.hdr_bytes NEXT_UID_OFFSET < 2 ^ 32 :=
    getU32_lt m.hdr_bytes hbyte NEXT_UID_OFFSET
  have htaillt : getU32 m.hdr_bytes LOG_FILE_TAIL_OFFSET_OFFSET < 2 ^ 32 :=
    getU32_lt m.hdr_bytes hbyte LOG_FILE_TAIL_OFFSET_OFFSET
  have hb1len : (if getU32 (writeBytes m.hdr_bytes u.offset u.data) NEXT_UID_OFFSET <
        getU32 m.hdr_bytes NEXT_UID_OFFSET
      then putU32 (writeBytes m.hdr_bytes u.offset u.data) NEXT_UID_OFFSET
             (getU32 m.hdr_bytes NEXT_UID_OFFSET)
      else writeBytes m.hdr_bytes u.offset u.data).length = 120 := by
    split
    · rw [putU32_length _ _ _ (by rw [hmirlen]; decide), hmirlen]
    · exact hmirlen
  rw [hres]
  dsimp only
  have hnext : getU32 (putU32
      (if getU32 (writeBytes m.hdr_bytes u.offset u.data) NEXT_UID_OFFSET <
          getU32 m.hdr_bytes NEXT_UID_OFFSET
       then putU32 (writeBytes m.hdr_bytes u.offset u.data) NEXT_UID_OFFSET
              (getU32 m.hdr_bytes NEXT_UID_OFFSET)
       else writeBytes m.hdr_bytes u.offset u.data)
      LOG_FILE_TAIL_OFFSET_OFFSET
      (getU32 m.hdr_bytes LOG_FILE_TAIL_OFFSET_OFFSET)) NEXT_UID_OFFSET =
      (if getU32 (writeBytes m.hdr_bytes u.offset u.data) NEXT_UID_OFFSET <
          getU32 m.hdr_bytes NEXT_UID_OFFSET
       then getU32 m.hdr_bytes NEXT_UID_OFFSET
       else getU32 (writeBytes m.hdr_bytes u.offset u.data) NEXT_UID_OFFSET) := by
    rw [getU32_putU32_outside _ _ _ _ (by rw [hb1len]; decide) (by left; decide)]
    split
    · exact getU32_putU32_same _ _ _ (by rw [hmirlen]; decide) hnextlt
    · rfl
  refine ⟨rfl, rfl, hnext, ?_, ?_, ?_, ?_⟩
  · rw [hnext]
    split
    · exact le_refl _
    · omega
  · exact getU32_putU32_same _ _ _ (by rw [hb1len]; decide) htaillt
  · intro p hp hpn hpt
    rw [putU32_getD_outside _ _ _ _ (by rw [hb1len]; decide) (by
      revert hpt
      unfold LOG_FILE_TAIL_OFFSET_OFFSET
      omega)]
    have hmir : (writeBytes m.hdr_bytes u.offset u.data).getD p 0 =
        (if u.offset ≤ p ∧ p < u.offset + u.data.length
         then u.data.getD (p - u.offset) 0 else m.hdr_bytes.getD p 0) :=
      writeBytes_getD m.hdr_bytes u.offset u.data p hinb
    split
    · rw [putU32_getD_outside _ _ _ _ (by rw [hmirlen]; decide) (by
        revert hpn
        unfold NEXT_UID_OFFSET
        omega)]
      exact hmir
    · exact hmir
  · intro p
    exact writeBytes_getD m.hdr_copy_buf u.offset u.data p (le_trans hrange hcopy)

/-- Witness for C6: writing `next_uid = 40` over a header with
`next_uid = 50` (and `log_file_tail_offset = 7`) leaves `next_uid = 50` and
the tail offset at 7. -/
theorem header_update_guards_witness :
    getU32 (sync_header_update ⟨28, [40, 0, 0, 0]⟩
        ⟨sampleHdrBytes, sampleHdrBytes⟩).2.1.hdr_bytes NEXT_UID_OFFSET = 50 ∧
    getU32 (sync_header_update ⟨28, [40, 0, 0, 0]⟩
        ⟨sampleHdrBytes, sampleHdrBytes⟩).2.1.hdr_bytes
      LOG_FILE_TAIL_OFFSET_OFFSET = 7 := by
  have h := header_update_guards ⟨28, [40, 0, 0, 0]⟩ ⟨sampleHdrBytes, sampleHdrBytes⟩
    (by decide) (by decide) (by decide) (by decide) (by decide) (by decide)
  constructor
  · rw [h.2.2.1]
    decide
  · rw [h.2.2.2.2.1]
    decide

/-! ### Lemmas for the expunge compaction -/

theorem moveRecords_length (buf : List Record) (d src c : Nat)
    (h1 : d + c ≤ buf.length) (h2 : src + c ≤ buf.length) :
    (moveRecords buf d src c).length = buf.length := by
  unfold moveRecords
  simp only [List.length_append, List.length_take, List.length_drop]
  omega

theorem moveRecords_getD (buf : List Record) (d src c p : Nat)
    (h1 : d + c ≤ buf.length) (h2 : src + c ≤ buf.length) :
    (moveRecords buf d src c).getD p default =
      (if d ≤ p ∧ p < d + c then buf.getD (src + (p - d)) default
       else buf.getD p default) := by
  unfold moveRecords
  have htk : (buf.take d).length = d := by
    rw [List.length_take]
    omega
  have hmid : ((buf.drop src).take c).length = c := by
    rw [List.length_take, List.length_drop]
    omega
  rw [List.append_assoc]
  rcases Nat.lt_or_ge p d with hp | hp
  · rw [if_neg (by omega)]
    rw [List.getD_append _ _ _ _ (by rw [htk]; omega)]
    simp [List.getD_eq_getElem?_getD, List.getElem?_take, hp]
  · rw [List.getD_append_right _ _ _ _ (by rw [htk]; omega), htk]
    rcases Nat.lt_or_ge p (d + c) with hp2 | hp2
    · rw [if_pos ⟨hp, hp2⟩]
      rw [List.getD_append _ _ _ _ (by rw [hmid]; omega)]
      have hmid2 : ((buf.drop src).take c).getD (p - d) default =
          (buf.drop src).getD (p - d) default := by
        simp only [List.getD_eq_getElem?_getD, List.getElem?_take]
        rw [if_pos (by omega)]
      rw [hmid2]
      simp [List.getD_eq_getElem?_getD, List.getElem?_drop]
    · rw [if_neg (by omega)]
      rw [List.getD_append_right _ _ _ _ (by rw [hmid]; omega), hmid]
      have h3 := List.getD_eq_getElem?_getD (buf.drop (d + c)) (p - d - c) default
      rw [h3]
      simp only [List.getElem?_drop]
      have hpp : d + c + (p - d - c) = p := by omega
      rw [hpp, ← List.getD_eq_getElem?_getD]

/-- `mail_index_header_update_counts` on an expunged record (new flags 0):
under the counter preconditions it succeeds, decrementing the seen/deleted
counters by the record's bits and setting the deleted low-water mark to
`next_uid` exactly when the deleted counter reaches 0. -/
theorem update_counts_to_zero (hdr : Header) (flags : Nat)
    (hs : flags &&& MAIL_SEEN ≠ 0 → 1 ≤ hdr.seen_messages_count)
    (hd : flags &&& MAIL_DELETED ≠ 0 →
      1 ≤ hdr.deleted_messages_count ∧
        hdr.deleted_messages_count ≤ hdr.messages_count) :
    mail_index_header_update_counts hdr flags 0 =
      (none,
       { hdr with
           seen_messages_count := hdr.seen_messages_count - flagBit MAIL_SEEN flags,
           deleted_messages_count :=
             hdr.deleted_messages_count - flagBit MAIL_DELETED flags,
           first_deleted_uid_lowwater :=
             (if flags &&& MAIL_DELETED ≠ 0 ∧ hdr.deleted_messages_count = 1
              then hdr.next_uid else hdr.first_deleted_uid_lowwater) }) := by
  unfold mail_index_header_update_counts flagBit
  rw [Nat.xor_zero]
  by_cases hS : flags &&& MAIL_SEEN ≠ 0
  · have hSne : ¬ (hdr.seen_messages_count = 0) := by
      have := hs hS
      omega
    by_cases hD : flags &&& MAIL_DELETED ≠ 0
    · have hDd := hd hD
      have hDcond : ¬ (hdr.deleted_messages_count = 0 ∨
          hdr.deleted_messages_count > hdr.messages_count) := by omega
      have hm0 : ¬ (hdr.messages_count = 0) := by omega
      by_cases hone : hdr.deleted_messages_count = 1
      · simp [hS, hD, hSne, hDcond, hone, hm0]
      · have hnz : ¬ (hdr.deleted_messages_count - 1 = 0) := by
          have := hDd.1
          omega
        simp [hS, hD, hSne, hDcond, hone, hnz, hm0]
    · simp [hS, hD, hSne]
  · by_cases hD : flags &&& MAIL_DELETED ≠ 0
    · have hDd := hd hD
      have hDcond : ¬ (hdr.deleted_messages_count = 0 ∨
          hdr.deleted_messages_count > hdr.messages_count) := by omega
      have hm0 : ¬ (hdr.messages_count = 0) := by omega
      by_cases hone : hdr.deleted_messages_count = 1
      · simp [hS, hD, hDcond, hone, hm0]
      · have hnz : ¬ (hdr.deleted_messages_count - 1 = 0) := by
          have := hDd.1
          omega
        simp [hS, hD, hDcond, hone, hnz, hm0]
    · simp [hS, hD]

/-- Context-level version of `update_counts_to_zero` for an in-range uid. -/
theorem sync_update_counts_to_zero (ctx : SyncCtx) (uid flags : Nat)
    (huid : uid < ctx.map.hdr.next_uid)
    (hs : flags &&& MAIL_SEEN ≠ 0 → 1 ≤ ctx.map.hdr.seen_messages_count)
    (hd : flags &&& MAIL_DELETED ≠ 0 →
      1 ≤ ctx.map.hdr.deleted_messages_count ∧
        ctx.map.hdr.deleted_messages_count ≤ ctx.map.hdr.messages_count) :
    mail_index_sync_header_update_counts ctx uid flags 0 =
      { ctx with map := { ctx.map with hdr :=
          { ctx.map.hdr with
              seen_messages_count :=
                ctx.map.hdr.seen_messages_count - flagBit MAIL_SEEN flags,
              deleted_messages_count :=
                ctx.map.hdr.deleted_messages_count - flagBit MAIL_DELETED flags,
              first_deleted_uid_lowwater :=
                (if flags &&& MAIL_DELETED ≠ 0 ∧
                    ctx.map.hdr.deleted_messages_count = 1
                 then ctx.map.hdr.next_uid
                 else ctx.map.hdr.first_deleted_uid_lowwater) } } } := by
  unfold mail_index_sync_header_update_counts
  rw [if_neg (by omega)]
  rw [update_counts_to_zero ctx.map.hdr flags hs hd]

theorem rangeFlagCount_succ (flag : Nat) (buf : List Record) (s n : Nat) :
    rangeFlagCount flag buf s (n + 1) =
      flagBit flag (buf.getD (s - 1) default).flags +
        rangeFlagCount flag buf (s + 1) n := by
  unfold rangeFlagCount
  rw [List.range'_succ]
  simp

/-- The flag-counter fold over one expunged range: the counters drop by the
number of flagged records in the range, the deleted low-water mark moves to
`next_uid` exactly when the deleted counter reaches 0, and nothing else of
the context changes. -/
theorem expungeCountsFold_spec :
    ∀ (n s : Nat) (ctx : SyncCtx),
      (∀ q, s ≤ q → q < s + n →
        (ctx.map.rec_map.buf.getD (q - 1) default).uid < ctx.map.hdr.next_uid) →
      rangeFlagCount MAIL_SEEN ctx.map.rec_map.buf s n ≤
        ctx.map.hdr.seen_messages_count →
      rangeFlagCount MAIL_DELETED ctx.map.rec_map.buf s n ≤
        ctx.map.hdr.deleted_messages_count →
      ctx.map.hdr.deleted_messages_count ≤ ctx.map.hdr.messages_count →
      (List.range' s n).foldl
        (fun c seq =>
          let r := c.map.rec_map.buf.getD (seq - 1) default
          mail_index_sync_header_update_counts c r.uid r.flags 0) ctx =
      { ctx with map := { ctx.map with hdr :=
          { ctx.map.hdr with
              seen_messages_count := ctx.map.hdr.seen_messages_count -
                rangeFlagCount MAIL_SEEN ctx.map.rec_map.buf s n,
              deleted_messages_count := ctx.map.hdr.deleted_messages_count -
                rangeFlagCount MAIL_DELETED ctx.map.rec_map.buf s n,
              first_deleted_uid_lowwater :=
                (if rangeFlagCount MAIL_DELETED ctx.map.rec_map.buf s n ≠ 0 ∧
                    ctx.map.hdr.deleted_messages_count =
                      rangeFlagCount MAIL_DELETED ctx.map.rec_map.buf s n
                 then ctx.map.hdr.next_uid
                 else ctx.map.hdr.first_deleted_uid_lowwater) } } } := by
  intro n
  induction n with
  | zero =>
    intro s ctx _ _ _ _
    simp [rangeFlagCount]
  | succ n ih =>
    intro s ctx hu hseen hdel hdm
    rw [List.range'_succ, List.foldl_cons]
    rw [rangeFlagCount_succ] at hseen hdel
    have hstep := sync_update_counts_to_zero ctx
      (ctx.map.rec_map.buf.getD (s - 1) default).uid
      (ctx.map.rec_map.buf.getD (s - 1) default).flags
      (hu s (le_refl s) (by omega))
      (fun hb => by
        unfold flagBit at hseen
        rw [if_pos hb] at hseen
        omega)
      (fun hb => by
        unfold flagBit at hdel
        rw [if_pos hb] at hdel
        constructor
        · omega
        · omega)
    dsimp only
    rw [hstep]
    have hrec := ih (s + 1)
      { ctx with map := { ctx.map with hdr :=
          { ctx.map.hdr with
              seen_messages_count :=
                ctx.map.hdr.seen_messages_count -
                  flagBit MAIL_SEEN (ctx.map.rec_map.buf.getD (s - 1) default).flags,
              deleted_messages_count :=
                ctx.map.hdr.deleted_messages_count -
                  flagBit MAIL_DELETED (ctx.map.rec_map.buf.getD (s - 1) default).flags,
              first_deleted_uid_lowwater :=
                (if (ctx.map.rec_map.buf.getD (s - 1) default).flags &&&
                      MAIL_DELETED ≠ 0 ∧
                    ctx.map.hdr.deleted_messages_count = 1
                 then ctx.map.hdr.next_uid
                 else ctx.map.hdr.first_deleted_uid_lowwater) } } }
      (fun q hq1 hq2 => hu q (by omega) (by omega))
      (by dsimp only; omega)
      (by dsimp only; omega)
      (by dsimp only; omega)
    rw [hrec]
    dsimp only
    rw [rangeFlagCount_succ MAIL_SEEN, rangeFlagCount_succ MAIL_DELETED]
    have esub : ∀ a b c : Nat, a - b - c = a - (b + c) := fun a b c => by omega
    rw [esub ctx.map.hdr.seen_messages_count, esub ctx.map.hdr.deleted_messages_count]
    simp only [SyncCtx.mk.injEq, Map.mk.injEq, Header.mk.injEq, eq_self_iff_true,
      and_true, true_and]
    by_cases hbD : (ctx.map.rec_map.buf.getD (s - 1) default).flags &&&
        MAIL_DELETED ≠ 0
    · have hb1 : flagBit MAIL_DELETED
          (ctx.map.rec_map.buf.getD (s - 1) default).flags = 1 := by
        unfold flagBit
        rw [if_pos hbD]
      rw [hb1] at hdel ⊢
      by_cases hr0 : rangeFlagCount MAIL_DELETED ctx.map.rec_map.buf (s + 1) n = 0
      · rw [hr0]
        simp only [Nat.add_zero]
        by_cases h1 : ctx.map.hdr.deleted_messages_count = 1
        · rw [if_neg (fun hc => hc.1 rfl), if_pos ⟨hbD, h1⟩, if_pos ⟨by omega, h1⟩]
        · rw [if_neg (fun hc => hc.1 rfl), if_neg (fun hc => h1 hc.2),
              if_neg (fun hc => h1 hc.2)]
      · by_cases heq : ctx.map.hdr.deleted_messages_count =
            1 + rangeFlagCount MAIL_DELETED ctx.map.rec_map.buf (s + 1) n
        · rw [if_pos ⟨hr0, by omega⟩, if_pos ⟨by omega, heq⟩]
        · rw [if_neg (fun hc => heq (by omega)),
              if_neg (fun hc => by omega),
              if_neg (fun hc => heq (by omega))]
    · have hb0 : flagBit MAIL_DELETED
          (ctx.map.rec_map.buf.getD (s - 1) default).flags = 0 := by
        unfold flagBit
        rw [if_neg hbD]
      rw [hb0] at hdel ⊢
      simp only [Nat.sub_zero, Nat.zero_add]
      by_cases hcnd : rangeFlagCount MAIL_DELETED ctx.map.rec_map.buf (s + 1) n ≠ 0 ∧
          ctx.map.hdr.deleted_messages_count =
            rangeFlagCount MAIL_DELETED ctx.map.rec_map.buf (s + 1) n
      · rw [if_pos hcnd, if_pos hcnd]
      · rw [if_neg hcnd, if_neg hcnd]
        rw [if_neg (fun hc => hbD hc.1)]

theorem rangesValid_cons (prev N s e : Nat) (rest : List (Nat × Nat)) :
    rangesValid prev N ((s, e) :: rest) = true ↔
      prev < s ∧ s ≤ e ∧ e ≤ N ∧ rangesValid e N rest = true := by
  simp [rangesValid, Bool.and_eq_true, and_assoc]

theorem inRanges_cons (s e q : Nat) (R : List (Nat × Nat)) :
    inRanges ((s, e) :: R) q = true ↔ (s ≤ q ∧ q ≤ e) ∨ inRanges R q = true := by
  simp [inRanges]

theorem totalExpunged_cons (s e : Nat) (R : List (Nat × Nat)) :
    totalExpunged ((s, e) :: R) = (e + 1 - s) + totalExpunged R := by
  simp [totalExpunged]

theorem countInWindow_cons (s e q : Nat) (R : List (Nat × Nat)) :
    countInWindow ((s, e) :: R) q = (min e q + 1 - s) + countInWindow R q := by
  simp [countInWindow]

theorem expFlagCount_cons (flag : Nat) (buf : List Record) (s e : Nat)
    (R : List (Nat × Nat)) :
    expFlagCount flag buf ((s, e) :: R) =
      rangeFlagCount flag buf s (e + 1 - s) + expFlagCount flag buf R := by
  simp [expFlagCount]

theorem lastE_cons (s e prev : Nat) (R : List (Nat × Nat)) :
    lastE ((s, e) :: R) prev = lastE R e := by
  simp [lastE]

theorem rangesValid_ranges :
    ∀ (R : List (Nat × Nat)) (prev N : Nat), rangesValid prev N R = true →
      ∀ r ∈ R, prev < r.1 ∧ r.1 ≤ r.2 ∧ r.2 ≤ N := by
  intro R
  induction R with
  | nil => intro prev N _ r hr; simp at hr
  | cons a rest ih =>
    intro prev N hv r hr
    obtain ⟨h1, h2, h3, h4⟩ := (rangesValid_cons prev N a.1 a.2 rest).mp hv
    rcases List.mem_cons.mp hr with rfl | hr'
    · exact ⟨h1, h2, h3⟩
    · have := ih a.2 N h4 r hr'
      exact ⟨by omega, this.2⟩

theorem countInWindow_zero :
    ∀ (R : List (Nat × Nat)) (q : Nat), (∀ r ∈ R, q < r.1) →
      countInWindow R q = 0 := by
  intro R
  induction R with
  | nil => intro q _; rfl
  | cons a rest ih =>
    intro q h
    rw [show a = (a.1, a.2) from rfl, countInWindow_cons]
    have h1 := h a (List.mem_cons_self a rest)
    have h2 := ih q (fun r hr => h r (List.mem_cons_of_mem a hr))
    have : min a.2 q + 1 - a.1 = 0 := by
      rcases Nat.le_total a.2 q with hc | hc <;> omega
    omega

theorem countInWindow_full :
    ∀ (R : List (Nat × Nat)) (q : Nat), (∀ r ∈ R, r.2 ≤ q) →
      countInWindow R q = totalExpunged R := by
  intro R
  induction R with
  | nil => intro q _; rfl
  | cons a rest ih =>
    intro q h
    rw [show a = (a.1, a.2) from rfl, countInWindow_cons, totalExpunged_cons]
    have h1 := h a (List.mem_cons_self a rest)
    have h2 := ih q (fun r hr => h r (List.mem_cons_of_mem a hr))
    have : min a.2 q = a.2 := by omega
    omega

theorem countInWindow_le_span :
    ∀ (R : List (Nat × Nat)) (prev N q : Nat), rangesValid prev N R = true →
      prev ≤ q → countInWindow R q + prev ≤ q := by
  intro R
  induction R with
  | nil => intro prev N q _ h; simp [countInWindow]; omega
  | cons a rest ih =>
    intro prev N q hv hq
    obtain ⟨h1, h2, h3, h4⟩ := (rangesValid_cons prev N a.1 a.2 rest).mp hv
    rw [show a = (a.1, a.2) from rfl, countInWindow_cons]
    rcases Nat.lt_or_ge q a.1 with hc | hc
    · have hz := countInWindow_zero rest q (fun r hr => by
        have := rangesValid_ranges rest a.2 N h4 r hr
        omega)
      have : min a.2 q + 1 - a.1 = 0 := by omega
      omega
    · rcases Nat.le_total q a.2 with hc2 | hc2
      · have hz := countInWindow_zero rest q (fun r hr => by
          have := rangesValid_ranges rest a.2 N h4 r hr
          omega)
        have : min a.2 q = q := by omega
        omega
      · have := ih a.2 N q h4 (by omega)
        have : min a.2 q = a.2 := by omega
        omega

theorem totalExpunged_le_lastE :
    ∀ (R : List (Nat × Nat)) (prev N : Nat), rangesValid prev N R = true →
      totalExpunged R + prev ≤ lastE R prev ∧ (prev ≤ N → lastE R prev ≤ N) := by
  intro R
  induction R with
  | nil =>
    intro prev N _
    constructor
    · simp [totalExpunged, lastE]
    · intro h
      simpa [lastE] using h
  | cons a rest ih =>
    intro prev N hv
    obtain ⟨h1, h2, h3, h4⟩ := (rangesValid_cons prev N a.1 a.2 rest).mp hv
    rw [show a = (a.1, a.2) from rfl, totalExpunged_cons, lastE_cons]
    have := ih a.2 N h4
    constructor
    · omega
    · intro _
      exact this.2 h3

theorem rangeFlagCount_congr (flag : Nat) (b1 b2 : List Record) (s n : Nat)
    (h : ∀ q, s ≤ q → q < s + n → b1.getD (q - 1) default = b2.getD (q - 1) default) :
    rangeFlagCount flag b1 s n = rangeFlagCount flag b2 s n := by
  unfold rangeFlagCount
  congr 1
  apply List.map_congr_left
  intro q hq
  have := List.mem_range'_1.mp hq
  rw [h q this.1 this.2]

theorem expFlagCount_congr :
    ∀ (R : List (Nat × Nat)) (flag : Nat) (b1 b2 : List Record) (prev N : Nat),
      rangesValid prev N R = true →
      (∀ q, prev < q → q ≤ N → b1.getD (q - 1) default = b2.getD (q - 1) default) →
      expFlagCount flag b1 R = expFlagCount flag b2 R := by
  intro R
  induction R with
  | nil => intro flag b1 b2 prev N _ _; rfl
  | cons a rest ih =>
    intro flag b1 b2 prev N hv h
    obtain ⟨h1, h2, h3, h4⟩ := (rangesValid_cons prev N a.1 a.2 rest).mp hv
    rw [show a = (a.1, a.2) from rfl, expFlagCount_cons, expFlagCount_cons]
    rw [rangeFlagCount_congr flag b1 b2 a.1 (a.2 + 1 - a.1)
      (fun q hq1 hq2 => h q (by omega) (by omega))]
    rw [ih flag b1 b2 a.2 N h4 (fun q hq1 hq2 => h q (by omega) hq2)]

theorem rangeFlagCount_le (flag : Nat) (buf : List Record) :
    ∀ (n s : Nat), rangeFlagCount flag buf s n ≤ n := by
  intro n
  induction n with
  | zero => intro s; simp [rangeFlagCount]
  | succ n ih =>
    intro s
    rw [rangeFlagCount_succ]
    have h1 : flagBit flag (buf.getD (s - 1) default).flags ≤ 1 := by
      unfold flagBit
      split <;> omega
    have := ih (s + 1)
    omega

theorem expFlagCount_le_total (flag : Nat) (buf : List Record) :
    ∀ (R : List (Nat × Nat)), expFlagCount flag buf R ≤ totalExpunged R := by
  intro R
  induction R with
  | nil => simp [expFlagCount, totalExpunged]
  | cons a rest ih =>
    rw [show a = (a.1, a.2) from rfl, expFlagCount_cons, totalExpunged_cons]
    have := rangeFlagCount_le flag buf (a.2 + 1 - a.1) a.1
    omega

/-- Characterization of one iteration of the expunge loop: the counts drop,
the surviving gap `(prev, s)` moves down to `dest`, everything at index
`≥ s - 1` and everything below `dest - 1` is untouched, and the message and
record counts drop by the range size. -/
theorem expungeStep_chars (ctx : SyncCtx) (dest prev s e : Nat)
    (rest : List (Nat × Nat))
    (h1 : prev < s) (h2 : s ≤ e)
    (hd1 : 1 ≤ dest) (hd2 : dest ≤ prev + 1)
    (hbound : e ≤ ctx.map.rec_map.buf.length)
    (hu : ∀ q, s ≤ q → q < s + (e + 1 - s) →
      (ctx.map.rec_map.buf.getD (q - 1) default).uid < ctx.map.hdr.next_uid)
    (hseen1 : rangeFlagCount MAIL_SEEN ctx.map.rec_map.buf s (e + 1 - s) ≤
      ctx.map.hdr.seen_messages_count)
    (hdel1 : rangeFlagCount MAIL_DELETED ctx.map.rec_map.buf s (e + 1 - s) ≤
      ctx.map.hdr.deleted_messages_count)
    (hdm1 : ctx.map.hdr.deleted_messages_count ≤ ctx.map.hdr.messages_count) :
    ∃ c : SyncCtx,
      expungeLoop ((s, e) :: rest) ctx dest prev =
        expungeLoop rest c (dest + (s - 1 - prev)) e ∧
      c.map.rec_map.buf.length = ctx.map.rec_map.buf.length ∧
      (∀ k, k + 1 < dest →
        c.map.rec_map.buf.getD k default =
          ctx.map.rec_map.buf.getD k default) ∧
      (∀ j, j < s - 1 - prev →
        c.map.rec_map.buf.getD (dest - 1 + j) default =
          ctx.map.rec_map.buf.getD (prev + j) default) ∧
      (∀ k, s - 1 ≤ k →
        c.map.rec_map.buf.getD k default =
          ctx.map.rec_map.buf.getD k default) ∧
      c.map.hdr.messages_count = ctx.map.hdr.messages_count - (e + 1 - s) ∧
      c.map.rec_map.records_count =
        ctx.map.rec_map.records_count - (e + 1 - s) ∧
      c.map.hdr.seen_messages_count = ctx.map.hdr.seen_messages_count -
        rangeFlagCount MAIL_SEEN ctx.map.rec_map.buf s (e + 1 - s) ∧
      c.map.hdr.deleted_messages_count = ctx.map.hdr.deleted_messages_count -
        rangeFlagCount MAIL_DELETED ctx.map.rec_map.buf s (e + 1 - s) ∧
      c.errors = ctx.errors ∧
      c.map.hdr.next_uid = ctx.map.hdr.next_uid := by
  have hA : expungeCountsRange ctx s e =
      { ctx with map := { ctx.map with hdr :=
          { ctx.map.hdr with
              seen_messages_count := ctx.map.hdr.seen_messages_count -
                rangeFlagCount MAIL_SEEN ctx.map.rec_map.buf s (e + 1 - s),
              deleted_messages_count := ctx.map.hdr.deleted_messages_count -
                rangeFlagCount MAIL_DELETED ctx.map.rec_map.buf s (e + 1 - s),
              first_deleted_uid_lowwater :=
                (if rangeFlagCount MAIL_DELETED ctx.map.rec_map.buf s
                      (e + 1 - s) ≠ 0 ∧
                    ctx.map.hdr.deleted_messages_count =
                      rangeFlagCount MAIL_DELETED ctx.map.rec_map.buf s
                        (e + 1 - s)
                 then ctx.map.hdr.next_uid
                 else ctx.map.hdr.first_deleted_uid_lowwater) } } } := by
    unfold expungeCountsRange
    exact expungeCountsFold_spec (e + 1 - s) s ctx hu hseen1 hdel1 hdm1
  have hcnt : e - s + 1 = e + 1 - s := by omega
  by_cases hgap : prev + 1 ≤ s - 1
  · have hmc : (s - 1) - (prev + 1) + 1 = s - 1 - prev := by omega
    by_cases hne : prev + 1 ≠ dest
    · rw [expungeLoop, hA]
      dsimp only
      rw [if_pos hgap, if_pos hne]
      dsimp only
      rw [hmc, hcnt]
      refine ⟨_, rfl, ?_, ?_, ?_, ?_, ?_, ?_, ?_, ?_, ?_, ?_⟩
      all_goals dsimp only
      · rw [moveRecords_length _ _ _ _ (by omega) (by omega)]
      · intro k hk
        rw [moveRecords_getD _ _ _ _ _ (by omega) (by omega)]
        rw [if_neg (by omega)]
      · intro j hj
        rw [moveRecords_getD _ _ _ _ _ (by omega) (by omega)]
        rw [if_pos (by omega)]
        congr 1
        omega
      · intro k hk
        rw [moveRecords_getD _ _ _ _ _ (by omega) (by omega)]
        rw [if_neg (by omega)]
    · have hpd : prev + 1 = dest := by omega
      rw [expungeLoop, hA]
      dsimp only
      rw [if_pos hgap, if_neg hne]
      dsimp only
      rw [hmc, hcnt]
      refine ⟨_, rfl, rfl, fun k _ => rfl, fun j hj => ?_, fun k _ => rfl,
        rfl, rfl, rfl, rfl, rfl, rfl⟩
      have hjj : dest - 1 + j = prev + j := by omega
      rw [hjj]
  · -- no gap: s = prev + 1
    have hz : s - 1 - prev = 0 := by omega
    rw [expungeLoop, hA]
    dsimp only
    rw [if_neg hgap]
    dsimp only
    rw [hcnt, hz, Nat.add_zero]
    exact ⟨_, rfl, rfl, fun k _ => rfl, fun j hj => absurd hj (by omega),
      fun k _ => rfl, rfl, rfl, rfl, rfl, rfl, rfl⟩

set_option maxHeartbeats 1600000 in
/-- The input/output relation of `expungeLoop`: ranges are walked in order,
every surviving record moves down by the number of expunged seqs below it
(byte-identically), counts drop by the range totals, and no corruption is
reported. -/
theorem expungeLoop_spec :
    ∀ (R : List (Nat × Nat)) (ctx : SyncCtx) (dest prev N : Nat),
      rangesValid prev N R = true →
      N ≤ ctx.map.rec_map.buf.length →
      1 ≤ dest → dest ≤ prev + 1 →
      totalExpunged R ≤ ctx.map.hdr.messages_count →
      (∀ q, prev < q → inRanges R q = true →
        (ctx.map.rec_map.buf.getD (q - 1) default).uid < ctx.map.hdr.next_uid) →
      expFlagCount MAIL_SEEN ctx.map.rec_map.buf R ≤
        ctx.map.hdr.seen_messages_count →
      expFlagCount MAIL_DELETED ctx.map.rec_map.buf R ≤
        ctx.map.hdr.deleted_messages_count →
      ctx.map.hdr.deleted_messages_count + totalExpunged R ≤
        ctx.map.hdr.messages_count +
          expFlagCount MAIL_DELETED ctx.map.rec_map.buf R →
      ((expungeLoop R ctx dest prev).2.2 = lastE R prev ∧
       (expungeLoop R ctx dest prev).2.1 + totalExpunged R =
         dest + (lastE R prev - prev) ∧
       (expungeLoop R ctx dest prev).1.map.rec_map.buf.length =
         ctx.map.rec_map.buf.length ∧
       (∀ k, k + 1 < dest →
         (expungeLoop R ctx dest prev).1.map.rec_map.buf.getD k default =
           ctx.map.rec_map.buf.getD k default) ∧
       (∀ q, prev < q → q ≤ lastE R prev → inRanges R q = false →
         (expungeLoop R ctx dest prev).1.map.rec_map.buf.getD
             (dest + (q - prev - countInWindow R q) - 2) default =
           ctx.map.rec_map.buf.getD (q - 1) default) ∧
       (∀ k, lastE R prev ≤ k →
         (expungeLoop R ctx dest prev).1.map.rec_map.buf.getD k default =
           ctx.map.rec_map.buf.getD k default) ∧
       (expungeLoop R ctx dest prev).1.map.hdr.messages_count =
         ctx.map.hdr.messages_count - totalExpunged R ∧
       (expungeLoop R ctx dest prev).1.map.rec_map.records_count =
         ctx.map.rec_map.records_count - totalExpunged R ∧
       (expungeLoop R ctx dest prev).1.map.hdr.seen_messages_count =
         ctx.map.hdr.seen_messages_count -
           expFlagCount MAIL_SEEN ctx.map.rec_map.buf R ∧
       (expungeLoop R ctx dest prev).1.map.hdr.deleted_messages_count =
         ctx.map.hdr.deleted_messages_count -
           expFlagCount MAIL_DELETED ctx.map.rec_map.buf R ∧
       (expungeLoop R ctx dest prev).1.errors = ctx.errors ∧
       (expungeLoop R ctx dest prev).1.map.hdr.next_uid =
         ctx.map.hdr.next_uid) := by
  intro R
  induction R with
  | nil =>
    intro ctx dest prev N _ _ _ _ _ _ _ _ _
    refine ⟨rfl, by simp [expungeLoop, totalExpunged, lastE], rfl, fun k _ => rfl,
      fun q hq1 hq2 _ => ?_, fun k _ => rfl,
      by simp [expungeLoop, totalExpunged], by simp [expungeLoop, totalExpunged],
      by simp [expungeLoop, expFlagCount], by simp [expungeLoop, expFlagCount], rfl, rfl⟩
    simp only [lastE, List.foldl_nil] at hq2
    omega
  | cons a rest ih =>
    rcases a with ⟨s, e⟩
    intro ctx dest prev N hv hN hd1 hd2 htot hu hseen hdel hdm
    obtain ⟨h1, h2, h3, h4⟩ := (rangesValid_cons prev N s e rest).mp hv
    have hEl := totalExpunged_le_lastE rest e N h4
    have hLE : e ≤ lastE rest e := by
      have := hEl.1
      omega
    have hLN : lastE rest e ≤ N := hEl.2 h3
    rw [expFlagCount_cons] at hseen hdel hdm
    rw [totalExpunged_cons] at htot hdm
    have hrngS := rangeFlagCount_le MAIL_SEEN ctx.map.rec_map.buf (e + 1 - s) s
    have hrngD := rangeFlagCount_le MAIL_DELETED ctx.map.rec_map.buf (e + 1 - s) s
    have hexprest := expFlagCount_le_total MAIL_DELETED ctx.map.rec_map.buf rest
    obtain ⟨c, hkey, hclen, hcpre, hcgap, hctail, hcmsg, hcrec, hcseen, hcdel,
      hcerr, hcnext⟩ :=
      expungeStep_chars ctx dest prev s e rest h1 h2 hd1 hd2 (by omega)
        (fun q hq1 hq2 => hu q (by omega)
          ((inRanges_cons s e q rest).mpr (Or.inl ⟨hq1, by omega⟩)))
        (by omega) (by omega) (by omega)
    have hbufc : ∀ q, e < q → q ≤ N →
        c.map.rec_map.buf.getD (q - 1) default =
          ctx.map.rec_map.buf.getD (q - 1) default :=
      fun q hq1 _ => hctail (q - 1) (by omega)
    have hexpS := expFlagCount_congr rest MAIL_SEEN c.map.rec_map.buf
      ctx.map.rec_map.buf e N h4 hbufc
    have hexpD := expFlagCount_congr rest MAIL_DELETED c.map.rec_map.buf
      ctx.map.rec_map.buf e N h4 hbufc
    have ihres := ih c (dest + (s - 1 - prev)) e N h4
      (by rw [hclen]; exact hN)
      (by omega) (by omega)
      (by rw [hcmsg]; omega)
      (fun q hq1 hqin => by
        rw [hcnext, hctail (q - 1) (by omega)]
        exact hu q (by omega) ((inRanges_cons s e q rest).mpr (Or.inr hqin)))
      (by rw [hexpS, hcseen]; omega)
      (by rw [hexpD, hcdel]; omega)
      (by rw [hexpD, hcdel, hcmsg]; omega)
    obtain ⟨i1, i2, i3, i4, i5, i6, i7, i8, i9, i10, i11, i12⟩ := ihres
    rw [hkey]
    refine ⟨?_, ?_, ?_, ?_, ?_, ?_, ?_, ?_, ?_, ?_, ?_, ?_⟩
    · rw [lastE_cons]
      exact i1
    · rw [lastE_cons, totalExpunged_cons]
      omega
    · rw [i3, hclen]
    · intro k hk
      rw [i4 k (by omega)]
      exact hcpre k hk
    · intro q hq1 hq2 hq3
      rw [lastE_cons] at hq2
      have hqq : ¬ (inRanges ((s, e) :: rest) q = true) := by
        simp [hq3]
      have hL : ¬ (s ≤ q ∧ q ≤ e) :=
        fun h => hqq ((inRanges_cons s e q rest).mpr (Or.inl h))
      have hR : inRanges rest q = false := by
        cases hrq : inRanges rest q with
        | false => rfl
        | true => exact absurd ((inRanges_cons s e q rest).mpr (Or.inr hrq)) hqq
      rcases Nat.lt_or_ge q s with hqs | hqs
      · have hciw : countInWindow ((s, e) :: rest) q = 0 := by
          apply countInWindow_zero
          intro r hr
          rcases List.mem_cons.mp hr with rfl | hr2
          · exact hqs
          · have := rangesValid_ranges rest e N h4 r hr2
            omega
        rw [hciw]
        rw [show dest + (q - prev - 0) - 2 = dest - 1 + (q - 1 - prev) from by
          omega]
        rw [i4 (dest - 1 + (q - 1 - prev)) (by omega)]
        have hg := hcgap (q - 1 - prev) (by omega)
        rw [show prev + (q - 1 - prev) = q - 1 from by omega] at hg
        exact hg
      · rcases le_or_lt q e with hqe | hqe
        · exact absurd ⟨hqs, hqe⟩ hL
        · have hciw : countInWindow ((s, e) :: rest) q =
              (e + 1 - s) + countInWindow rest q := by
            rw [countInWindow_cons]
            have : min e q = e := by omega
            rw [this]
          have hcb := countInWindow_le_span rest e N q h4 (by omega)
          have hi5 := i5 q (by omega) hq2 hR
          rw [show dest + (q - prev - countInWindow ((s, e) :: rest) q) - 2 =
                (dest + (s - 1 - prev)) + (q - e - countInWindow rest q) - 2 from by
            rw [hciw]
            omega]
          rw [hi5]
          exact hctail (q - 1) (by omega)
    · intro k hk
      rw [lastE_cons] at hk
      rw [i6 k hk]
      exact hctail k (by omega)
    · rw [totalExpunged_cons, i7, hcmsg]
      omega
    · rw [totalExpunged_cons, i8, hcrec]
      omega
    · rw [expFlagCount_cons, i9, hexpS, hcseen]
      omega
    · rw [expFlagCount_cons, i10, hexpD, hcdel]
      omega
    · rw [i11, hcerr]
    · rw [i12, hcnext]

/-- A sequence that is not expunged has strictly more than `countInWindow`
predecessors: its new seq `q - countInWindow R q` stays at least `prev + 1`. -/
theorem countInWindow_lt :
    ∀ (R : List (Nat × Nat)) (prev N q : Nat), rangesValid prev N R = true →
      prev < q → inRanges R q = false → countInWindow R q + prev + 1 ≤ q := by
  intro R
  induction R with
  | nil =>
    intro prev N q _ hq _
    simp [countInWindow]
    omega
  | cons a rest ih =>
    rcases a with ⟨s, e⟩
    intro prev N q hv hq hin
    obtain ⟨h1, h2, h3, h4⟩ := (rangesValid_cons prev N s e rest).mp hv
    have hqq : ¬ (inRanges ((s, e) :: rest) q = true) := by
      simp [hin]
    have hL : ¬ (s ≤ q ∧ q ≤ e) :=
      fun h => hqq ((inRanges_cons s e q rest).mpr (Or.inl h))
    have hR : inRanges rest q = false := by
      cases hrq : inRanges rest q with
      | false => rfl
      | true => exact absurd ((inRanges_cons s e q rest).mpr (Or.inr hrq)) hqq
    rw [countInWindow_cons]
    rcases Nat.lt_or_ge q s with hc | hc
    · have hz := countInWindow_zero rest q (fun r hr => by
        have := rangesValid_ranges rest e N h4 r hr
        omega)
      omega
    · rcases le_or_lt q e with hc2 | hc2
      · exact absurd ⟨hc, hc2⟩ hL
      · have := ih e N q h4 (by omega) hR
        omega

/-- Below the last expunged seq, the expunged total exceeds the window count
by at most the remaining span. -/
theorem totalExpunged_le_cIW :
    ∀ (R : List (Nat × Nat)) (prev N q : Nat), rangesValid prev N R = true →
      q ≤ lastE R prev →
      totalExpunged R + q ≤ countInWindow R q + lastE R prev := by
  intro R
  induction R with
  | nil =>
    intro prev N q _ hq
    simp only [totalExpunged, countInWindow, lastE, List.map_nil, List.sum_nil,
      List.foldl_nil] at *
    omega
  | cons a rest ih =>
    rcases a with ⟨s, e⟩
    intro prev N q hv hq
    obtain ⟨h1, h2, h3, h4⟩ := (rangesValid_cons prev N s e rest).mp hv
    rw [lastE_cons] at hq ⊢
    rw [totalExpunged_cons, countInWindow_cons]
    have hEl := totalExpunged_le_lastE rest e N h4
    rcases le_or_lt q e with hc | hc
    · have hmin : min e q = q := by omega
      omega
    · have := ih e N q h4 hq
      have hmin : min e q = e := by omega
      omega

/-- Every range ends no later than `lastE`. -/
theorem ranges_le_lastE :
    ∀ (R : List (Nat × Nat)) (prev N : Nat), rangesValid prev N R = true →
      ∀ r ∈ R, r.2 ≤ lastE R prev := by
  intro R
  induction R with
  | nil =>
    intro prev N _ r hr
    simp at hr
  | cons a rest ih =>
    rcases a with ⟨s, e⟩
    intro prev N hv r hr
    obtain ⟨h1, h2, h3, h4⟩ := (rangesValid_cons prev N s e rest).mp hv
    rw [lastE_cons]
    have hEl := totalExpunged_le_lastE rest e N h4
    rcases List.mem_cons.mp hr with rfl | hr2
    · show e ≤ lastE rest e
      have := hEl.1
      omega
    · exact ih e N h4 r hr2

set_option maxHeartbeats 1600000 in
/-- C1: an EXPUNGE or EXPUNGE_GUID transaction without the EXTERNAL bit
leaves the sync state untouched (it is merely a request).  With EXTERNAL
set, `sync_expunge_range` over a valid set `R` of expunged seq ranges keeps
the record buffer length, moves every surviving record of original seq `q`
byte-identically down to new seq `q - countInWindow R q` (its seq minus the
number of expunged seqs below it), decrements `messages_count` and
`records_count` each by the total expunged count, decrements the seen and
deleted counters by the expunged records' flag bits (their new flags counted
as 0), and reports no corruption. -/
theorem expunge_compaction (ctx : SyncCtx) (R : List (Nat × Nat))
    (hv : rangesValid 0 ctx.map.hdr.messages_count R = true)
    (hrc : ctx.map.rec_map.records_count = ctx.map.rec_map.buf.length)
    (hmr : ctx.map.hdr.messages_count ≤ ctx.map.rec_map.records_count)
    (hu : ∀ q, 0 < q → inRanges R q = true →
      (ctx.map.rec_map.buf.getD (q - 1) default).uid < ctx.map.hdr.next_uid)
    (hseen : expFlagCount MAIL_SEEN ctx.map.rec_map.buf R ≤
      ctx.map.hdr.seen_messages_count)
    (hdel : expFlagCount MAIL_DELETED ctx.map.rec_map.buf R ≤
      ctx.map.hdr.deleted_messages_count)
    (hdm : ctx.map.hdr.deleted_messages_count + totalExpunged R ≤
      ctx.map.hdr.messages_count +
        expFlagCount MAIL_DELETED ctx.map.rec_map.buf R) :
    (∀ uidR : List (Nat × Nat),
      mail_index_sync_record_real
          { external := false, data := TxnData.expunge uidR } ctx =
        some (0, ctx)) ∧
    (∀ uids : List Nat,
      mail_index_sync_record_real
          { external := false, data := TxnData.expungeGuid uids } ctx =
        some (0, ctx)) ∧
    (sync_expunge_range R ctx).map.rec_map.buf.length =
      ctx.map.rec_map.buf.length ∧
    (∀ q, 0 < q → q ≤ ctx.map.rec_map.records_count → inRanges R q = false →
      (sync_expunge_range R ctx).map.rec_map.buf.getD
          (q - countInWindow R q - 1) default =
        ctx.map.rec_map.buf.getD (q - 1) default) ∧
    (sync_expunge_range R ctx).map.hdr.messages_count =
      ctx.map.hdr.messages_count - totalExpunged R ∧
    (sync_expunge_range R ctx).map.rec_map.records_count =
      ctx.map.rec_map.records_count - totalExpunged R ∧
    (sync_expunge_range R ctx).map.hdr.seen_messages_count =
      ctx.map.hdr.seen_messages_count -
        expFlagCount MAIL_SEEN ctx.map.rec_map.buf R ∧
    (sync_expunge_range R ctx).map.hdr.deleted_messages_count =
      ctx.map.hdr.deleted_messages_count -
        expFlagCount MAIL_DELETED ctx.map.rec_map.buf R ∧
    (sync_expunge_range R ctx).errors = ctx.errors := by
  rcases R with _ | ⟨⟨s, e⟩, rest⟩
  · exact ⟨fun _ => rfl, fun _ => rfl, rfl, fun _ _ _ _ => rfl, rfl, rfl, rfl,
      rfl, rfl⟩
  · have hN2 : ctx.map.hdr.messages_count ≤ ctx.map.rec_map.buf.length := by
      omega
    have hEl := totalExpunged_le_lastE ((s, e) :: rest) 0
      ctx.map.hdr.messages_count hv
    have hTL : totalExpunged ((s, e) :: rest) ≤ lastE ((s, e) :: rest) 0 := by
      have := hEl.1
      omega
    have hLN : lastE ((s, e) :: rest) 0 ≤ ctx.map.hdr.messages_count :=
      hEl.2 (Nat.zero_le _)
    obtain ⟨i1, i2, i3, i4, i5, i6, i7, i8, i9, i10, i11, i12⟩ :=
      expungeLoop_spec ((s, e) :: rest) ctx 1 0 ctx.map.hdr.messages_count hv
        hN2 (le_refl 1) (by omega)
        (by have := hEl.1; omega)
        hu hseen hdel hdm
    have hdest : (expungeLoop ((s, e) :: rest) ctx 1 0).2.1 =
        1 + lastE ((s, e) :: rest) 0 - totalExpunged ((s, e) :: rest) := by
      omega
    have hser : sync_expunge_range ((s, e) :: rest) ctx =
        (if ctx.map.rec_map.records_count >
            (expungeLoop ((s, e) :: rest) ctx 1 0).2.2 then
          { (expungeLoop ((s, e) :: rest) ctx 1 0).1 with map :=
            { (expungeLoop ((s, e) :: rest) ctx 1 0).1.map with rec_map :=
              { (expungeLoop ((s, e) :: rest) ctx 1 0).1.map.rec_map with
                  buf := moveRecords
                    (expungeLoop ((s, e) :: rest) ctx 1 0).1.map.rec_map.buf
                    ((expungeLoop ((s, e) :: rest) ctx 1 0).2.1 - 1)
                    (expungeLoop ((s, e) :: rest) ctx 1 0).2.2
                    (ctx.map.rec_map.records_count -
                      (expungeLoop ((s, e) :: rest) ctx 1 0).2.2) } } }
         else (expungeLoop ((s, e) :: rest) ctx 1 0).1) := rfl
    rw [hser, i1, hdest]
    rw [show 1 + lastE ((s, e) :: rest) 0 - totalExpunged ((s, e) :: rest) - 1 =
          lastE ((s, e) :: rest) 0 - totalExpunged ((s, e) :: rest) from by
      omega]
    by_cases hOL : ctx.map.rec_map.records_count > lastE ((s, e) :: rest) 0
    · rw [if_pos hOL]
      refine ⟨fun _ => rfl, fun _ => rfl, ?_, ?_, i7, i8, i9, i10, i11⟩
      · show (moveRecords _ _ _ _).length = _
        rw [moveRecords_length _ _ _ _ (by rw [i3]; omega) (by rw [i3]; omega),
          i3]
      · intro q hq1 hq2 hq3
        show (moveRecords _ _ _ _).getD _ default = _
        rw [moveRecords_getD _ _ _ _ _ (by rw [i3]; omega) (by rw [i3]; omega)]
        rcases le_or_lt q (lastE ((s, e) :: rest) 0) with hqL | hqL
        · have hciw := countInWindow_lt ((s, e) :: rest) 0
            ctx.map.hdr.messages_count q hv hq1 hq3
          have hT2 := totalExpunged_le_cIW ((s, e) :: rest) 0
            ctx.map.hdr.messages_count q hv hqL
          rw [if_neg (by omega)]
          rw [show q - countInWindow ((s, e) :: rest) q - 1 =
                1 + (q - 0 - countInWindow ((s, e) :: rest) q) - 2 from by
            omega]
          exact i5 q hq1 hqL hq3
        · have hfull : countInWindow ((s, e) :: rest) q =
              totalExpunged ((s, e) :: rest) :=
            countInWindow_full ((s, e) :: rest) q (fun r hr => by
              have := ranges_le_lastE ((s, e) :: rest) 0
                ctx.map.hdr.messages_count hv r hr
              omega)
          rw [hfull]
          rw [if_pos ⟨by omega, by omega⟩]
          rw [show lastE ((s, e) :: rest) 0 +
                (q - totalExpunged ((s, e) :: rest) - 1 -
                  (lastE ((s, e) :: rest) 0 - totalExpunged ((s, e) :: rest))) =
                q - 1 from by omega]
          exact i6 (q - 1) (by omega)
    · rw [if_neg hOL]
      refine ⟨fun _ => rfl, fun _ => rfl, i3, ?_, i7, i8, i9, i10, i11⟩
      intro q hq1 hq2 hq3
      rw [show q - countInWindow ((s, e) :: rest) q - 1 =
            1 + (q - 0 - countInWindow ((s, e) :: rest) q) - 2 from by omega]
      exact i5 q hq1 (by omega) hq3

/-- Concrete run of C1 on the spec's example: uids 1..5, expunging seqs 2
and 4 (uid 2 was seen and uid 4 deleted) leaves the three survivors 1, 3, 5
compacted with `messages_count = records_count = 3` and the flag counters at
zero, and a non-EXTERNAL expunge of the same set is a no-op. -/
theorem expunge_compaction_witness :
    mail_index_sync_record_real
        { external := false, data := TxnData.expunge [(2, 2)] } cExp =
      some (0, cExp) ∧
    mail_index_sync_record_real
        { external := false, data := TxnData.expungeGuid [2, 4] } cExp =
      some (0, cExp) ∧
    (sync_expunge_range [(2, 2), (4, 4)] cExp).map.hdr.messages_count = 3 ∧
    (sync_expunge_range [(2, 2), (4, 4)] cExp).map.rec_map.records_count = 3 ∧
    (sync_expunge_range [(2, 2), (4, 4)] cExp).map.hdr.seen_messages_count = 0 ∧
    (sync_expunge_range [(2, 2), (4, 4)] cExp).map.hdr.deleted_messages_count
      = 0 ∧
    (sync_expunge_range [(2, 2), (4, 4)] cExp).map.rec_map.buf.getD 0 default =
      { uid := 1, flags := 0, ext := [] } ∧
    (sync_expunge_range [(2, 2), (4, 4)] cExp).map.rec_map.buf.getD 1 default =
      { uid := 3, flags := 0, ext := [] } ∧
    (sync_expunge_range [(2, 2), (4, 4)] cExp).map.rec_map.buf.getD 2 default =
      { uid := 5, flags := 0, ext := [] } := by
  have h := expunge_compaction cExp [(2, 2), (4, 4)] (by decide) (by decide)
    (by decide)
    (fun q hq hin => by
      have h2 : q = 2 ∨ q = 4 := by
        rcases (inRanges_cons 2 2 q [(4, 4)]).mp hin with h1 | h1
        · omega
        · rcases (inRanges_cons 4 4 q []).mp h1 with h3 | h3
          · omega
          · simp [inRanges] at h3
      rcases h2 with rfl | rfl <;> decide)
    (by decide) (by decide) (by decide)
  refine ⟨h.1 [(2, 2)], h.2.1 [2, 4], ?_, ?_, ?_, ?_, ?_, ?_, ?_⟩
  · rw [h.2.2.2.2.1]
    decide
  · rw [h.2.2.2.2.2.1]
    decide
  · rw [h.2.2.2.2.2.2.1]
    decide
  · rw [h.2.2.2.2.2.2.2.1]
    decide
  · have hs := h.2.2.2.1 1 (by decide) (by decide) (by decide)
    rw [show (1 : Nat) - countInWindow [(2, 2), (4, 4)] 1 - 1 = 0 from rfl]
      at hs
    rw [hs]
    decide
  · have hs := h.2.2.2.1 3 (by decide) (by decide) (by decide)
    rw [show (3 : Nat) - countInWindow [(2, 2), (4, 4)] 3 - 1 = 1 from rfl]
      at hs
    rw [hs]
    decide
  · have hs := h.2.2.2.1 5 (by decide) (by decide) (by decide)
    rw [show (5 : Nat) - countInWindow [(2, 2), (4, 4)] 5 - 1 = 2 from rfl]
      at hs
    rw [hs]
    decide

set_option maxHeartbeats 800000 in
/-- C8: the sync driver's error policy.  (1) A transaction record that
returns an error (any `ret`, in particular the corruption result -1) does
not abort the replay loop: the remaining transactions are still applied
from the state it left.  (2) On a successful log view and replay, the driver
returns the fsck map when the end-of-sync header validation fails or when
corruption was recorded during the loop, and the synced map otherwise.
(3) An I/O failure from `mail_transaction_log_view_set` returns the hard
failure -1; (4) a lost log position returns 0.  (5) The driver's return
value is -1 exactly when a log view I/O failure occurred (at set time or at
the final read); header validation failures and recorded corruption still
return success (with the fsck map). -/
theorem sync_map_error_policy :
    (∀ (t : Txn) (rest : List Txn) (ctx ctx2 : SyncCtx) (r : Int),
      mail_index_sync_record_real t ctx = some (r, ctx2) →
      syncMapLoop (t :: rest) ctx = syncMapLoop rest ctx2) ∧
    (∀ (env : SyncEnv) (ctx0 ctx : SyncCtx),
      0 < env.viewSet → syncMapLoop env.txns ctx0 = some ctx →
      mail_index_sync_map env ctx0 =
        some ((if env.nextFail then -1 else 1 : Int),
          some (if ¬ env.hdrCheckOk { ctx.map with
                    hdr := mail_index_sync_update_log_offset ctx ctx.map.hdr
                      true } then env.fsckMap
                else if ctx.errors then env.fsckMap
                else { ctx.map with
                    hdr := mail_index_sync_update_log_offset ctx ctx.map.hdr
                      true }))) ∧
    (∀ (env : SyncEnv) (ctx0 : SyncCtx), env.viewSet < 0 →
      mail_index_sync_map env ctx0 = some (-1, none)) ∧
    (∀ (env : SyncEnv) (ctx0 : SyncCtx), env.viewSet = 0 →
      mail_index_sync_map env ctx0 = some (0, none)) ∧
    (∀ (env : SyncEnv) (ctx0 : SyncCtx) (ret : Int) (m : Option Map),
      mail_index_sync_map env ctx0 = some (ret, m) →
      (ret = -1 ↔ env.viewSet < 0 ∨ (0 < env.viewSet ∧ env.nextFail = true))) := by
  refine ⟨?_, ?_, ?_, ?_, ?_⟩
  · intro t rest ctx ctx2 r h
    simp only [syncMapLoop, h]
  · intro env ctx0 ctx h1 h2
    unfold mail_index_sync_map
    rw [if_neg (by omega), if_neg (by omega), h2]
  · intro env ctx0 h1
    unfold mail_index_sync_map
    rw [if_pos h1]
  · intro env ctx0 h1
    unfold mail_index_sync_map
    rw [if_neg (by omega), if_pos h1]
  · intro env ctx0 ret m h
    unfold mail_index_sync_map at h
    rcases lt_trichotomy env.viewSet 0 with hlt | heq | hgt
    · rw [if_pos hlt] at h
      simp only [Option.some.injEq, Prod.mk.injEq] at h
      constructor
      · intro _
        exact Or.inl hlt
      · intro _
        omega
    · rw [if_neg (by omega), if_pos heq] at h
      simp only [Option.some.injEq, Prod.mk.injEq] at h
      constructor
      · intro hc
        omega
      · intro hor
        rcases hor with h2 | h2
        · omega
        · omega
    · rw [if_neg (by omega), if_neg (by omega)] at h
      rcases hl : syncMapLoop env.txns ctx0 with _ | ctx
      · rw [hl] at h
        simp at h
      · rw [hl] at h
        simp only [Option.some.injEq, Prod.mk.injEq] at h
        by_cases hnf : env.nextFail
        · rw [if_pos hnf] at h
          constructor
          · intro _
            exact Or.inr ⟨hgt, hnf⟩
          · intro _
            omega
        · rw [if_neg hnf] at h
          constructor
          · intro hc
            omega
          · intro hor
            rcases hor with h2 | h2
            · omega
            · exact absurd h2.2 hnf
/-- Concrete run of C8: a corrupt record is skipped and the loop continues;
since it recorded corruption, the driver returns success (1) with the fsck
map; a log view set failure of -1 or 0 returns -1 or 0 with no map. -/
theorem sync_map_error_policy_witness :
    syncMapLoop [{ external := false, data := TxnData.unknown },
                 { external := false, data := TxnData.boundary }] cExp =
      syncMapLoop [{ external := false, data := TxnData.boundary }]
        { cExp with errors := true } ∧
    mail_index_sync_map envW cExp = some (1, some envW.fsckMap) ∧
    mail_index_sync_map { envW with viewSet := -1 } cExp = some (-1, none) ∧
    mail_index_sync_map { envW with viewSet := 0 } cExp = some (0, none) := by
  have h := sync_map_error_policy
  refine ⟨h.1 { external := false, data := TxnData.unknown }
      [{ external := false, data := TxnData.boundary }] cExp
      { cExp with errors := true } (-1) (by decide), ?_,
    h.2.2.1 { envW with viewSet := -1 } cExp (by decide),
    h.2.2.2.1 { envW with viewSet := 0 } cExp (by decide)⟩
  rw [h.2.1 envW cExp { cExp with errors := true } (by decide) (by decide)]
  decide

end MailIndex








namespace ConfigFilter

set_option maxHeartbeats 2000000 in
/-- The comparator is total: one of the two orientations is `≤ 0`. -/
theorem config_filter_parser_cmp_total (a b : FilterParser) :
    config_filter_parser_cmp a b ≤ 0 ∨ config_filter_parser_cmp b a ≤ 0 := by
  unfold config_filter_parser_cmp
  dsimp only
  split_ifs <;> simp_all

theorem sortInsert_head (x : FilterParser) (l : List FilterParser) :
    (sortInsert x l).head? = some x ∨ (sortInsert x l).head? = l.head? := by
  cases l with
  | nil => left; rfl
  | cons y ys =>
    rw [sortInsert]
    by_cases hc : config_filter_parser_cmp x y ≤ 0
    · rw [if_pos hc]; left; rfl
    · rw [if_neg hc]; right; rfl

theorem sortInsert_chain (x : FilterParser) (l : List FilterParser)
    (h : l.Chain' (fun a b => config_filter_parser_cmp a b ≤ 0)) :
    (sortInsert x l).Chain' (fun a b => config_filter_parser_cmp a b ≤ 0) := by
  induction l with
  | nil => simp [sortInsert]
  | cons y ys ih =>
    rw [sortInsert]
    by_cases hc : config_filter_parser_cmp x y ≤ 0
    · rw [if_pos hc]
      exact List.chain'_cons.mpr ⟨hc, h⟩
    · rw [if_neg hc]
      have hyx : config_filter_parser_cmp y x ≤ 0 :=
        (config_filter_parser_cmp_total x y).resolve_left hc
      have hys : ys.Chain' (fun a b => config_filter_parser_cmp a b ≤ 0) := h.tail
      have hrec := ih hys
      cases ys with
      | nil => simpa [sortInsert, List.chain'_pair] using hyx
      | cons z zs =>
        rw [sortInsert] at hrec ⊢
        by_cases hc2 : config_filter_parser_cmp x z ≤ 0
        · rw [if_pos hc2] at hrec ⊢
          exact List.chain'_cons.mpr ⟨hyx, hrec⟩
        · rw [if_neg hc2] at hrec ⊢
          have hyz : config_filter_parser_cmp y z ≤ 0 := (List.chain'_cons.mp h).1
          exact List.chain'_cons.mpr ⟨hyz, hrec⟩

/-- The result of `config_filter_parser_sort` is ordered by the comparator. -/
theorem config_filter_parser_sort_chain (l : List FilterParser) :
    (config_filter_parser_sort l).Chain'
      (fun a b => config_filter_parser_cmp a b ≤ 0) := by
  induction l with
  | nil => simp [config_filter_parser_sort]
  | cons x xs ih => exact sortInsert_chain x _ ih

/-- Claim C3 counterexample: the claim says the merger sorts matches in
ascending specificity (least-specific first) and takes the least-specific
match as the base.  At this concrete input the sorted match list puts the
strictly more specific `service imap` parser FIRST (the comparator orders it
strictly before the unconstrained parser), and the merged result keeps that
first match's value `A` of setting `x` as the base copy. -/
theorem find_all_sort_counterexample :
    (config_filter_find_all [cfP_general, cfP_imap] [] cfQ_imap).1 =
      [cfP_imap, cfP_general] ∧
    cfP_imap.filter.service.isSome = true ∧
    cfP_general.filter.service.isNone = true ∧
    config_filter_parser_cmp cfP_imap cfP_general < 0 ∧
    (config_filter_parsers_get [cfP_general, cfP_imap] [] cfQ_imap).map
        (fun r => (r.1.toOption, r.2)) =
      some (some [⟨"mail", [("x", "A")]⟩],
            ⟨false, false, false, false, none⟩) := by decide

/-- Claim C3 (amended): the filter merger sorts the matching parsers in
DESCENDING specificity (most-specific first, by `config_filter_parser_cmp`),
takes the first match of that order (the most specific one) as the base
whose per-module parsers are copied, and then applies the changes of each
subsequent, less specific match in order. -/
theorem find_all_sorted_most_specific_first
    (parsers : List FilterParser) (modules : List String) (filter : Filter) :
    ((config_filter_find_all parsers modules filter).1.Chain'
       (fun a b => config_filter_parser_cmp a b ≤ 0)) ∧
    (∀ base rest,
       (config_filter_find_all parsers modules filter).1 = base :: rest →
       config_filter_parsers_get parsers modules filter =
         some (mergeApplyLoop base.parsers base.filter rest,
               (config_filter_find_all parsers modules filter).2)) := by
  constructor
  · exact config_filter_parser_sort_chain _
  · intro base rest h
    unfold config_filter_parsers_get
    dsimp only
    rw [h]

/-- Witness for C3 (amended) at a concrete input: the base of the merge is
the sorted list's first (most specific) match `cfP_imap`. -/
theorem find_all_sorted_most_specific_first_witness :
    config_filter_parsers_get [cfP_general, cfP_imap] [] cfQ_imap =
      some (mergeApplyLoop cfP_imap.parsers cfP_imap.filter [cfP_general],
            (config_filter_find_all [cfP_general, cfP_imap] [] cfQ_imap).2) :=
  (find_all_sorted_most_specific_first [cfP_general, cfP_imap] [] cfQ_imap).2
    cfP_imap [cfP_general] (by decide)


theorem find?_congr_on {α} (p q : α → Bool) :
    ∀ (l : List α), (∀ a ∈ l, p a = q a) → l.find? p = l.find? q := by
  intro l
  induction l with
  | nil => intro _; rfl
  | cons a l ih =>
    intro h
    have ha := h a (List.mem_cons_self a l)
    by_cases hp : p a
    · rw [List.find?_cons_of_pos _ hp, List.find?_cons_of_pos _ (ha ▸ hp)]
    · rw [List.find?_cons_of_neg _ hp, List.find?_cons_of_neg _ (ha ▸ hp)]
      exact ih (fun b hb => h b (List.mem_cons_of_mem a hb))

/-- With conflict detection off, applying changes never fails (conflicts are
silently permitted, the destination winning). -/
theorem settings_apply_go_no_detect (cs : List (String × String)) :
    ∀ d : ModParser, ∃ d2, settings_apply_go false d cs = .ok d2 := by
  induction cs with
  | nil => intro d; exact ⟨d, rfl⟩
  | cons kv rest ih =>
    intro d
    rw [settings_apply_go]
    by_cases hc : ((d.changed.map Prod.fst).contains kv.1 : Bool)
    · rw [if_pos hc]
      simpa using ih d
    · rw [if_neg hc]
      exact ih _

/-- With conflict detection on, `settings_apply_go` fails exactly on the
first key already changed in the destination (assuming the source's change
keys are distinct, as a change mask's are). -/
theorem settings_apply_go_detect (cs : List (String × String)) :
    ∀ d : ModParser, (cs.map Prod.fst).Nodup →
    ((cs.find? (fun kv => (d.changed.map Prod.fst).contains kv.1)) = none →
       ∃ d2, settings_apply_go true d cs = .ok d2) ∧
    (∀ kv, (cs.find? (fun kv => (d.changed.map Prod.fst).contains kv.1)) = some kv →
       settings_apply_go true d cs = .error kv.1) := by
  induction cs with
  | nil =>
    intro d _
    constructor
    · intro _; exact ⟨d, rfl⟩
    · intro kv hk; simp [List.find?] at hk
  | cons kv rest ih =>
    intro d hnd
    by_cases hc : ((d.changed.map Prod.fst).contains kv.1 : Bool)
    · constructor
      · intro h
        simp only [List.find?, hc] at h
        exact Option.noConfusion h
      · intro kv2 hk
        simp only [List.find?, hc, Option.some.injEq] at hk
        rw [settings_apply_go, if_pos hc, hk]
        simp
    · have hnd2 : (rest.map Prod.fst).Nodup := by
        simp only [List.map_cons, List.nodup_cons] at hnd
        exact hnd.2
      have hk1 : kv.1 ∉ rest.map Prod.fst := by
        simp only [List.map_cons, List.nodup_cons] at hnd
        exact hnd.1
      have hcong :
          rest.find? (fun kv2 =>
            ((({ d with changed := d.changed ++ [kv] } : ModParser)).changed.map
              Prod.fst).contains kv2.1) =
          rest.find? (fun kv2 => (d.changed.map Prod.fst).contains kv2.1) := by
        apply find?_congr_on
        intro a ha
        have hne : a.1 ≠ kv.1 := by
          intro he
          exact hk1 (he ▸ List.mem_map_of_mem Prod.fst ha)
        simp [List.contains, List.elem_eq_mem, hne]
      have hrec := ih { d with changed := d.changed ++ [kv] } hnd2
      rw [hcong] at hrec
      constructor
      · intro h
        simp only [List.find?, hc] at h
        rw [settings_apply_go, if_neg hc]
        exact hrec.1 h
      · intro kv2 hk
        simp only [List.find?, hc] at hk
        rw [settings_apply_go, if_neg hc]
        exact hrec.2 kv2 hk

/-- With detection off the per-module apply loop never fails. -/
theorem applyChangesZip_no_detect (fl : String) :
    ∀ (dest src : List ModParser),
      ∃ d2, applyChangesZip false fl dest src = .ok d2 := by
  intro dest
  induction dest with
  | nil => intro src; exact ⟨[], rfl⟩
  | cons d ds ih =>
    intro src
    obtain ⟨d2, hd2⟩ := settings_apply_go_no_detect (src.headD ⟨"", []⟩).changed d
    obtain ⟨d3, hd3⟩ := ih src.tail
    refine ⟨d2 :: d3, ?_⟩
    rw [applyChangesZip]
    unfold settings_parser_apply_changes
    rw [hd2, hd3]

/-- The per-module apply loop with detection on: succeeds iff no module pair
has a conflict, and otherwise reports the first module's first conflicting
key formatted with the source filter's origin. -/
theorem applyChangesZip_detect (fl : String) :
    ∀ (dest src : List ModParser),
      (∀ mp ∈ src, (mp.changed.map Prod.fst).Nodup) →
      (moduleConflictKey dest src = none →
         ∃ d2, applyChangesZip true fl dest src = .ok d2) ∧
      (∀ k, moduleConflictKey dest src = some k →
         applyChangesZip true fl dest src =
           .error ("Conflict in setting " ++ k ++ " found from filter at " ++ fl)) := by
  intro dest
  induction dest with
  | nil =>
    intro src _
    constructor
    · intro _; exact ⟨[], rfl⟩
    · intro k hk; simp [moduleConflictKey] at hk
  | cons d ds ih =>
    intro src hnd
    have hs : ((src.headD ⟨"", []⟩).changed.map Prod.fst).Nodup := by
      cases src with
      | nil => simp
      | cons s ss => exact hnd s (List.mem_cons_self s ss)
    have htl : ∀ mp ∈ src.tail, (mp.changed.map Prod.fst).Nodup := by
      cases src with
      | nil => intro mp h; simp at h
      | cons s ss => intro mp h; exact hnd mp (List.mem_cons_of_mem s h)
    have hone := settings_apply_go_detect (src.headD ⟨"", []⟩).changed d hs
    cases hck : conflictKey d (src.headD ⟨"", []⟩) with
    | some k =>
      have hfk : ((src.headD ⟨"", []⟩).changed.find?
          (fun kv => (d.changed.map Prod.fst).contains kv.1)).map Prod.fst =
            some k := by
        unfold conflictKey at hck
        exact hck
      obtain ⟨kv, hkv, hk1⟩ := Option.map_eq_some'.mp hfk
      have herr := hone.2 kv hkv
      constructor
      · intro h
        rw [moduleConflictKey, hck] at h
        simp at h
      · intro k2 hk2
        rw [moduleConflictKey, hck] at hk2
        simp at hk2
        subst hk2
        rw [applyChangesZip]
        unfold settings_parser_apply_changes
        rw [herr, hk1]
    | none =>
      have hfind : (src.headD ⟨"", []⟩).changed.find?
          (fun kv => (d.changed.map Prod.fst).contains kv.1) = none := by
        unfold conflictKey at hck
        exact Option.map_eq_none'.mp hck
      obtain ⟨d2, hd2⟩ := hone.1 hfind
      have hrec := ih src.tail htl
      constructor
      · intro h
        rw [moduleConflictKey, hck] at h
        obtain ⟨d3, hd3⟩ := hrec.1 h
        refine ⟨d2 :: d3, ?_⟩
        rw [applyChangesZip]
        unfold settings_parser_apply_changes
        rw [hd2, hd3]
      · intro k hk
        rw [moduleConflictKey, hck] at hk
        have hz := hrec.2 k hk
        rw [applyChangesZip]
        unfold settings_parser_apply_changes
        rw [hd2, hz]

/-- Claim C4: during the merge apply loop, when match `p`'s filter is a
superset of the previously applied match's filter (local/remote bits no
larger, local_name/service constrained only if the other's is), conflict
detection is disabled and the apply step always succeeds — conflicting
setting changes are permitted; otherwise, if `p` changes a setting key the
destination already changed, the merge fails with exactly
"Conflict in setting <key> found from filter at <file:line>" naming the
first such key and `p`'s origin, and no parsers are returned (the loop
yields the error, which `config_filter_parsers_get` propagates). -/
theorem merge_conflict_policy :
    (∀ (dest : List ModParser) (prev : Filter) (p : FilterParser)
       (rest : List FilterParser),
       config_filter_is_superset p.filter prev = true →
       ∃ d2, config_module_parser_apply_changes dest p false = .ok d2 ∧
         mergeApplyLoop dest prev (p :: rest) = mergeApplyLoop d2 p.filter rest) ∧
    (∀ (dest : List ModParser) (prev : Filter) (p : FilterParser)
       (rest : List FilterParser) (k : String),
       (∀ mp ∈ p.parsers, (mp.changed.map Prod.fst).Nodup) →
       config_filter_is_superset p.filter prev = false →
       moduleConflictKey dest p.parsers = some k →
       mergeApplyLoop dest prev (p :: rest) =
         .error ("Conflict in setting " ++ k ++ " found from filter at " ++
                 p.file_and_line)) := by
  constructor
  · intro dest prev p rest hsup
    obtain ⟨d2, hd2⟩ := applyChangesZip_no_detect p.file_and_line dest p.parsers
    refine ⟨d2, hd2, ?_⟩
    rw [mergeApplyLoop]
    simp only [hsup, Bool.not_true]
    rw [config_module_parser_apply_changes, hd2]
  · intro dest prev p rest k hnd hsup hck
    have hz := (applyChangesZip_detect p.file_and_line dest p.parsers hnd).2 k hck
    rw [mergeApplyLoop]
    simp only [hsup, Bool.not_false]
    rw [config_module_parser_apply_changes, hz]

/-- Witness for C4 at concrete inputs (scenario S6 and the superset side):
applying the unconstrained `cfP_general` after the more specific `cfP_imap`
is permitted (superset, no error) although both change `x`; applying
`cfP_remotenet` after `cfP_localnet` (neither a superset) with both changing
`x` fails with the conflict message naming `x` and conf:4. -/
theorem merge_conflict_policy_witness :
    (∃ d2, config_module_parser_apply_changes cfP_imap.parsers cfP_general false =
        .ok d2 ∧
      mergeApplyLoop cfP_imap.parsers cfP_imap.filter [cfP_general] =
        mergeApplyLoop d2 cfP_general.filter []) ∧
    mergeApplyLoop cfP_localnet.parsers cfP_localnet.filter [cfP_remotenet] =
      .error ("Conflict in setting " ++ "x" ++ " found from filter at " ++
              cfP_remotenet.file_and_line) :=
  ⟨merge_conflict_policy.1 cfP_imap.parsers cfP_imap.filter cfP_general []
     (by decide),
   merge_conflict_policy.2 cfP_localnet.parsers cfP_localnet.filter cfP_remotenet
     [] "x" (by decide) (by decide) (by decide)⟩

theorem findAllStep_out_specific (m : List String) (f : Filter) (acc : FindAcc)
    (p : FilterParser) :
    (findAllStep m f acc p).out.specific_services = acc.out.specific_services := by
  unfold findAllStep
  dsimp only
  split_ifs <;> rfl

theorem findAll_fold_out_specific (m : List String) (f : Filter) :
    ∀ (ps : List FilterParser) (acc : FindAcc),
      (ps.foldl (findAllStep m f) acc).out.specific_services =
        acc.out.specific_services := by
  intro ps
  induction ps with
  | nil => intro acc; rfl
  | cons p ps ih =>
    intro acc
    rw [List.foldl_cons, ih, findAllStep_out_specific]

theorem service_isSome_of_mismatch (mask f : Filter)
    (hms : config_filter_match_service mask f = false) :
    ∃ ms, mask.service = some ms := by
  cases h : mask.service with
  | none =>
    unfold config_filter_match_service at hms
    rw [h] at hms
    exact Bool.noConfusion hms
  | some ms => exact ⟨ms, rfl⟩

theorem findAllStep_names_matched (m : List String) (f : Filter) (acc : FindAcc)
    (p : FilterParser) (hms : config_filter_match_service p.filter f = true) :
    (findAllStep m f acc p).service_names = acc.service_names := by
  unfold findAllStep
  dsimp only
  rw [hms]
  simp only [Bool.not_true, Bool.false_eq_true, if_false]
  split_ifs <;> rfl

theorem findAllStep_names_mismatch (m : List String) (f : Filter) (acc : FindAcc)
    (p : FilterParser) (msv : String)
    (hms : config_filter_match_service p.filter f = false)
    (hsv : p.filter.service = some msv) :
    (findAllStep m f acc p).service_names =
      (if (! acc.service_names.contains msv && have_changed_settings p m) = true
       then acc.service_names ++ [msv] else acc.service_names) := by
  unfold findAllStep
  dsimp only
  rw [hms, hsv]
  simp only [Bool.not_false, if_true, Option.getD_some]
  split_ifs <;> rfl

theorem findAll_fold_names (m : List String) (f : Filter) :
    ∀ (ps : List FilterParser) (acc : FindAcc), acc.service_names.Nodup →
      ((ps.foldl (findAllStep m f) acc).service_names.Nodup ∧
       ∀ s, s ∈ (ps.foldl (findAllStep m f) acc).service_names ↔
         s ∈ acc.service_names ∨ ∃ p, p ∈ ps ∧ p.filter.service = some s ∧
           config_filter_match_service p.filter f = false ∧
           have_changed_settings p m = true) := by
  intro ps
  induction ps with
  | nil =>
    intro acc hnd
    refine ⟨hnd, ?_⟩
    intro s
    simp
  | cons p ps ih =>
    intro acc hnd
    rw [List.foldl_cons]
    by_cases hms : config_filter_match_service p.filter f = true
    · have hstep := findAllStep_names_matched m f acc p hms
      have hrec := ih (findAllStep m f acc p) (by rw [hstep]; exact hnd)
      refine ⟨hrec.1, ?_⟩
      intro s
      rw [hrec.2 s, hstep]
      constructor
      · rintro (h | ⟨q, hq, hqs⟩)
        · exact Or.inl h
        · exact Or.inr ⟨q, List.mem_cons_of_mem p hq, hqs⟩
      · rintro (h | ⟨q, hq, hq1, hq2, hq3⟩)
        · exact Or.inl h
        · rcases List.mem_cons.mp hq with rfl | hq'
          · rw [hms] at hq2
            exact Bool.noConfusion hq2
          · exact Or.inr ⟨q, hq', hq1, hq2, hq3⟩
    · have hms' : config_filter_match_service p.filter f = false :=
        Bool.eq_false_iff.mpr hms
      obtain ⟨msv, hsv⟩ := service_isSome_of_mismatch p.filter f hms'
      have hstep := findAllStep_names_mismatch m f acc p msv hms' hsv
      by_cases hcond :
          (! acc.service_names.contains msv && have_changed_settings p m) = true
      · rw [if_pos hcond] at hstep
        have hnc := (Bool.and_eq_true _ _).mp hcond
        have hnotmem : msv ∉ acc.service_names := by
          intro hmem
          have hcont : acc.service_names.contains msv = true := by
            simp [List.contains, List.elem_eq_mem, hmem]
          rw [hcont] at hnc
          exact Bool.noConfusion hnc.1
        have hch : have_changed_settings p m = true := hnc.2
        have hnd2 : (acc.service_names ++ [msv]).Nodup := by
          rw [List.nodup_append]
          refine ⟨hnd, List.nodup_singleton _, ?_⟩
          intro a ha hb
          rw [List.mem_singleton] at hb
          exact hnotmem (hb ▸ ha)
        have hrec := ih (findAllStep m f acc p) (by rw [hstep]; exact hnd2)
        refine ⟨hrec.1, ?_⟩
        intro s
        rw [hrec.2 s, hstep]
        simp only [List.mem_append, List.mem_singleton]
        constructor
        · rintro ((h | rfl) | ⟨q, hq, hqs⟩)
          · exact Or.inl h
          · exact Or.inr ⟨p, List.mem_cons_self p ps, hsv, hms', hch⟩
          · exact Or.inr ⟨q, List.mem_cons_of_mem p hq, hqs⟩
        · rintro (h | ⟨q, hq, hq1, hq2, hq3⟩)
          · exact Or.inl (Or.inl h)
          · rcases List.mem_cons.mp hq with rfl | hq'
            · have hseq : s = msv := by
                rw [hsv] at hq1
                exact (Option.some.injEq _ _).mp hq1.symm
              exact Or.inl (Or.inr hseq)
            · exact Or.inr ⟨q, hq', hq1, hq2, hq3⟩
      · rw [if_neg hcond] at hstep
        have hrec := ih (findAllStep m f acc p) (by rw [hstep]; exact hnd)
        refine ⟨hrec.1, ?_⟩
        intro s
        rw [hrec.2 s, hstep]
        constructor
        · rintro (h | ⟨q, hq, hqs⟩)
          · exact Or.inl h
          · exact Or.inr ⟨q, List.mem_cons_of_mem p hq, hqs⟩
        · rintro (h | ⟨q, hq, hq1, hq2, hq3⟩)
          · exact Or.inl h
          · rcases List.mem_cons.mp hq with rfl | hq'
            · have hseq : s = msv := by
                rw [hsv] at hq1
                exact (Option.some.injEq _ _).mp hq1.symm
              by_cases hch : have_changed_settings q m = true
              · have hcont : acc.service_names.contains msv = true := by
                  cases h2 : acc.service_names.contains msv with
                  | true => rfl
                  | false =>
                    refine absurd ?_ hcond
                    rw [h2, hch]
                    rfl
                have hmem : msv ∈ acc.service_names := by
                  simpa [List.contains, List.elem_eq_mem] using hcont
                exact Or.inl (hseq ▸ hmem)
              · exact absurd hq3 hch
            · exact Or.inr ⟨q, hq', hq1, hq2, hq3⟩

/-- Claim C9 counterexample: the claim says `specific_services` collects
exactly the services of parsers excluded ONLY by a service mismatch (whose
other constraints would have matched).  `cfP_pop3`'s local CIDR does NOT
match the query `cfQ_nets` (so its other constraints would have failed), yet
its service is still collected. -/
theorem specific_services_counterexample :
    (config_filter_find_all [cfP_pop3] [] cfQ_nets).2.specific_services =
      some ["pop3"] ∧
    config_filter_match_rest cfP_pop3.filter cfQ_nets = false := by decide

/-- Claim C9 (amended): `specific_services` is populated only when the query
filter has no service, and then collects — each at most once — exactly the
services of parsers whose service constraint rejected the query and that
have changed settings for the requested modules, regardless of whether their
other constraints would have matched. -/
theorem specific_services_characterization (parsers : List FilterParser)
    (modules : List String) (f : Filter) :
    (f.service.isSome = true →
       (config_filter_find_all parsers modules f).2.specific_services = none) ∧
    (f.service = none →
       ∃ l, (config_filter_find_all parsers modules f).2.specific_services =
              some l ∧
         l.Nodup ∧
         (∀ s, s ∈ l ↔ ∃ p, p ∈ parsers ∧ p.filter.service = some s ∧
            config_filter_match_service p.filter f = false ∧
            have_changed_settings p modules = true)) := by
  constructor
  · intro hsome
    have hnone : f.service.isNone = false := by
      cases h : f.service
      · rw [h] at hsome
        exact Bool.noConfusion hsome
      · rfl
    unfold config_filter_find_all
    dsimp only
    rw [hnone]
    simp only [Bool.false_eq_true, if_false]
    exact findAll_fold_out_specific modules f parsers _
  · intro hnone
    have hisnone : f.service.isNone = true := by rw [hnone]; rfl
    have hinv := findAll_fold_names modules f parsers
      ⟨[], [], ⟨false, false, false, false, none⟩⟩ (List.nodup_nil)
    refine ⟨(parsers.foldl (findAllStep modules f)
      ⟨[], [], ⟨false, false, false, false, none⟩⟩).service_names, ?_, hinv.1, ?_⟩
    · unfold config_filter_find_all
      dsimp only
      rw [hisnone]
      simp
    · intro s
      rw [hinv.2 s]
      simp

/-- Witness for C9 (amended): at a query with a service the field stays
`none`; at the service-less query `cfQ_nets` the collected list exists with
the characterizing membership property. -/
theorem specific_services_characterization_witness :
    (config_filter_find_all [cfP_pop3] [] cfQ_imap).2.specific_services = none ∧
    (∃ l, (config_filter_find_all [cfP_pop3] [] cfQ_nets).2.specific_services =
        some l ∧
      l.Nodup ∧
      (∀ s, s ∈ l ↔ ∃ p, p ∈ [cfP_pop3] ∧ p.filter.service = some s ∧
         config_filter_match_service p.filter cfQ_nets = false ∧
         have_changed_settings p [] = true)) :=
  ⟨(specific_services_characterization [cfP_pop3] [] cfQ_imap).1 (by decide),
   (specific_services_characterization [cfP_pop3] [] cfQ_nets).2 rfl⟩

end ConfigFilter
